import Mathlib

namespace RDT

/-- JavaScript values as seen by the embedded code: primitives plus references
into an object heap. Functions are heap objects (JS `typeof` distinguishes them). -/
inductive JsVal where
  | vNull
  | vUndef
  | vStr (s : String)
  | vInt (n : Int)
  | vBool (b : Bool)
  | vRef (a : Nat)
deriving Repr, DecidableEq

/-- Heap objects: functions, arrays, React elements (truthy `$$typeof`),
DOM nodes, and plain objects (ordered field lists). -/
inductive HObj where
  | funcObj (name : String)
  | arrObj (items : List JsVal)
  | reactElt
  | domNode
  | plainObj (fields : List (String × JsVal))
deriving Repr

/-- A total heap: every address holds an object (JS references cannot dangle). -/
def Heap := Nat → HObj

/-- JS truthiness on our value domain. -/
def jsTruthy : JsVal → Bool
  | .vNull => false
  | .vUndef => false
  | .vStr s => s ≠ ""
  | .vInt n => n ≠ 0
  | .vBool b => b
  | .vRef _ => true

/-- Whether `typeof v === 'function'` (true exactly for references to function objects). -/
def isFunVal (h : Heap) : JsVal → Bool
  | .vRef a => match h a with | .funcObj _ => true | _ => false
  | _ => false

/-- Serializer output values (`safeSerialize` returns plain JSON-able data,
echoed primitives, or echoed function references). -/
inductive SerOut where
  | oStr (s : String)
  | oInt (n : Int)
  | oBool (b : Bool)
  | oNull
  | oUndef
  | oFun (a : Nat) (name : String)
  | oArr (items : List SerOut)
  | oObj (fields : List (String × SerOut))
deriving Repr

/-- Prefix test on character lists (evaluable model of `String.startsWith`). -/
def listIsPre (pat s : List Char) : Bool :=
  match pat with
  | [] => true
  | p :: ps =>
    match s with
    | [] => false
    | c :: cs => p == c && listIsPre ps cs

/-- Evaluable model of JavaScript `key.startsWith(pat)`. -/
def strStartsWith (s pat : String) : Bool :=
  listIsPre pat.data s.data

/-- Sequential serialization of array items: the source's `.map` over a shared
mutable `seen`, so the set is threaded left to right.  `f` is the serializer at
the next-smaller depth. -/
def serSeq (f : JsVal → List Nat → SerOut × List Nat) :
    List JsVal → List Nat → List SerOut × List Nat
  | [], seen => ([], seen)
  | v :: vs, seen =>
    let (o, s1) := f v seen
    let (os, s2) := serSeq f vs s1
    (o :: os, s2)

/-- Sequential serialization of object entries (the source's `for` loop). -/
def serFields (f : JsVal → List Nat → SerOut × List Nat) :
    List (String × JsVal) → List Nat → List (String × SerOut) × List Nat
  | [], seen => ([], seen)
  | kv :: kvs, seen =>
    let (o, s1) := f kv.2 seen
    let (os, s2) := serFields f kvs s1
    ((kv.1, o) :: os, s2)

/-- Embedding of `safeSerialize` (src/src/ReactSession.ts lines 555-574 and
src/src/McpResponse.ts lines 822-839 / 979-1000; the versions differ only in the
array/entry caps, passed here as `aCap`/`eCap`).  Branches mirror the source's
order: null/undefined, the `typeof obj !== 'object'` early return (which also
returns function values unchanged, since `typeof` of a function is
`'function'`), the `seen` check and add, the depth cap, then arrays, React
elements, DOM nodes, the function-placeholder branch, and plain objects.
Recursion is bounded by `maxDepth`: every recursive call passes `maxDepth - 1`
and depth `0` returns before recursing. -/
def safeSerialize (h : Heap) (aCap eCap : Nat) :
    Nat → JsVal → List Nat → SerOut × List Nat
  | _, .vNull, seen => (.oNull, seen)
  | _, .vUndef, seen => (.oUndef, seen)
  | _, .vStr s, seen => (.oStr s, seen)
  | _, .vInt n, seen => (.oInt n, seen)
  | _, .vBool b, seen => (.oBool b, seen)
  | d, .vRef a, seen =>
    match h a with
    | .funcObj nm => (.oFun a nm, seen)
    | ho =>
      if a ∈ seen then (.oStr "[Circular]", seen)
      else
        match d with
        | 0 => (.oStr "[Max Depth]", a :: seen)
        | Nat.succ d' =>
          match ho with
          | .arrObj items =>
            let (os, seen2) :=
              serSeq (safeSerialize h aCap eCap d') (items.take aCap) (a :: seen)
            (.oArr os, seen2)
          | .reactElt => (.oStr "[React Element]", a :: seen)
          | .domNode => (.oStr "[DOM Node]", a :: seen)
          | .funcObj nm =>
            (.oStr ("[Function: " ++ (if nm = "" then "anonymous" else nm) ++ "]"),
             a :: seen)
          | .plainObj fields =>
            let kept := (fields.take eCap).filter
              (fun kv => !(strStartsWith kv.1 "__react"))
            let (fs, seen2) :=
              serFields (safeSerialize h aCap eCap d') kept (a :: seen)
            (.oObj fs, seen2)

/-- The `safeSerialize` of src/src/ReactSession.ts (array cap 10, entry cap 20). -/
def safeSerializeRS (h : Heap) (d : Nat) (v : JsVal) (seen : List Nat) :
    SerOut × List Nat :=
  safeSerialize h 10 20 d v seen

/-- The `safeSerialize` of src/src/McpResponse.ts (array cap 100, entry cap 50). -/
def safeSerializeMR (h : Heap) (d : Nat) (v : JsVal) (seen : List Nat) :
    SerOut × List Nat :=
  safeSerialize h 100 50 d v seen

/-- The explicit allow list of `isSemanticOrInteractive`
(src/src/ReactSession.ts lines 446-454 and 610-618). -/
def semanticRoles : List String :=
  ["button", "link", "checkbox", "radio", "textbox", "searchbox",
   "heading", "banner", "navigation", "main", "complementary",
   "form", "region", "article", "section",
   "menu", "menuitem", "tab", "tabpanel",
   "dialog", "alert", "alertdialog",
   "img", "figure", "table", "row", "cell",
   "list", "listitem", "tree", "treeitem"]

/-- The explicit deny list of `isSemanticOrInteractive`
(src/src/ReactSession.ts lines 456 and 620). -/
def skipRoles : List String :=
  ["generic", "StaticText", "InlineTextBox", "none", "presentation"]

/-- Embedding of `isSemanticOrInteractive` (src/src/ReactSession.ts lines
443-459, identical copy at lines 606-623).  `none` models an `undefined` role;
`if (!role) return false` also rejects the empty string. -/
def isSemanticOrInteractive : Option String → Bool
  | none => false
  | some role =>
    if role = "" then false
    else !(skipRoles.contains role) &&
      (semanticRoles.contains role || decide (0 < role.length))

theorem length_pos_of_ne_empty (r : String) (h : r ≠ "") : 0 < r.length := by
  cases r with
  | mk data =>
    cases data with
    | nil => exact absurd rfl h
    | cons c cs => simp [String.length]

/-- Claim C3, counterexample: the role string "foobar" is not on the allow
list, yet `isSemanticOrInteractive` admits it (the `role.length > 0` disjunct
makes every nonempty role pass), so the filter does not admit exactly the
allow-listed roles. -/
theorem c3_counterexample :
    isSemanticOrInteractive (some "foobar") = true ∧
      semanticRoles.contains "foobar" = false := by
  constructor
  · decide
  · decide

/-- Claim C3, amended: for every role, the tagging pass's semantic filter
passes if and only if the role is present, nonempty, and not on the deny list;
the allow list is redundant (any nonempty role already satisfies the
`role.length > 0` disjunct).  In particular generic containers, text runs and
the presentation/none roles are rejected, but arbitrary other roles are
admitted. -/
theorem c3_theorem :
    ∀ ro : Option String,
      isSemanticOrInteractive ro =
        (match ro with
         | none => false
         | some r => decide (r ≠ "") && !(skipRoles.contains r)) := by
  intro ro
  cases ro with
  | none => rfl
  | some r =>
    by_cases hr : r = ""
    · subst hr; rfl
    · have hlen : 0 < r.length := length_pos_of_ne_empty r hr
      simp [isSemanticOrInteractive, hr, hlen]

/-- Cleanliness of a string: it does not begin with the function placeholder. -/
def cleanStr (s : String) : Bool := !(strStartsWith s "[Function: ")

/-- Cleanliness of an input value. -/
def valClean : JsVal → Bool
  | .vStr s => cleanStr s
  | _ => true

/-- Cleanliness of a heap object: none of its immediate strings begin with the
function placeholder. -/
def objClean : HObj → Bool
  | .arrObj items => items.all valClean
  | .plainObj fields => fields.all (fun kv => valClean kv.2)
  | _ => true

/-- A heap is clean when every object in it is clean. -/
def heapClean (h : Heap) : Prop := ∀ a, objClean (h a) = true

mutual

/-- Cleanliness of a serializer output: no string in it begins with the
function placeholder. -/
def outClean : SerOut → Bool
  | .oStr s => cleanStr s
  | .oArr items => outCleanList items
  | .oObj fields => outCleanFields fields
  | _ => true

def outCleanList : List SerOut → Bool
  | [] => true
  | o :: os => outClean o && outCleanList os

def outCleanFields : List (String × SerOut) → Bool
  | [] => true
  | kv :: kvs => outClean kv.2 && outCleanFields kvs

end

theorem serSeq_clean (f : JsVal → List Nat → SerOut × List Nat)
    (hf : ∀ v seen, valClean v = true → outClean (f v seen).1 = true) :
    ∀ l seen, l.all valClean = true → outCleanList (serSeq f l seen).1 = true := by
  intro l
  induction l with
  | nil => intro seen _; rfl
  | cons v vs ih =>
    intro seen hall
    simp only [List.all_cons, Bool.and_eq_true] at hall
    simp only [serSeq, outCleanList, Bool.and_eq_true]
    exact ⟨hf v seen hall.1, ih _ hall.2⟩

theorem serFields_clean (f : JsVal → List Nat → SerOut × List Nat)
    (hf : ∀ v seen, valClean v = true → outClean (f v seen).1 = true) :
    ∀ l seen, l.all (fun kv => valClean kv.2) = true →
      outCleanFields (serFields f l seen).1 = true := by
  intro l
  induction l with
  | nil => intro seen _; rfl
  | cons kv kvs ih =>
    intro seen hall
    simp only [List.all_cons, Bool.and_eq_true] at hall
    simp only [serFields, outCleanFields, Bool.and_eq_true]
    exact ⟨hf kv.2 seen hall.1, ih _ hall.2⟩

theorem safeSerialize_clean (h : Heap) (aCap eCap : Nat) (hh : heapClean h) :
    ∀ d v seen, valClean v = true →
      outClean (safeSerialize h aCap eCap d v seen).1 = true := by
  intro d
  induction d with
  | zero =>
    intro v seen hv
    cases v with
    | vNull => rfl
    | vUndef => rfl
    | vStr s => exact hv
    | vInt n => rfl
    | vBool b => rfl
    | vRef a =>
      cases hha : h a with
      | funcObj nm => simp [safeSerialize, hha, outClean]
      | arrObj items =>
        by_cases hm : a ∈ seen <;> simp [safeSerialize, hha, hm] <;> decide
      | reactElt =>
        by_cases hm : a ∈ seen <;> simp [safeSerialize, hha, hm] <;> decide
      | domNode =>
        by_cases hm : a ∈ seen <;> simp [safeSerialize, hha, hm] <;> decide
      | plainObj fields =>
        by_cases hm : a ∈ seen <;> simp [safeSerialize, hha, hm] <;> decide
  | succ d ih =>
    intro v seen hv
    cases v with
    | vNull => rfl
    | vUndef => rfl
    | vStr s => exact hv
    | vInt n => rfl
    | vBool b => rfl
    | vRef a =>
      cases hha : h a with
      | funcObj nm => simp [safeSerialize, hha, outClean]
      | arrObj items =>
        by_cases hm : a ∈ seen
        · simp [safeSerialize, hha, hm]; decide
        · have hobj := hh a
          rw [hha] at hobj
          simp only [objClean] at hobj
          have hall : (items.take aCap).all valClean = true :=
            List.all_eq_true.mpr (fun v hvmem =>
              List.all_eq_true.mp hobj v (List.mem_of_mem_take hvmem))
          simp only [safeSerialize, hha, hm, if_neg, Bool.false_eq_true,
            not_false_eq_true, if_false]
          simpa [outClean] using
            serSeq_clean (safeSerialize h aCap eCap d) (fun v s => ih v s)
              (items.take aCap) (a :: seen) hall
      | reactElt =>
        by_cases hm : a ∈ seen <;> simp [safeSerialize, hha, hm] <;> decide
      | domNode =>
        by_cases hm : a ∈ seen <;> simp [safeSerialize, hha, hm] <;> decide
      | plainObj fields =>
        by_cases hm : a ∈ seen
        · simp [safeSerialize, hha, hm]; decide
        · have hobj := hh a
          rw [hha] at hobj
          simp only [objClean] at hobj
          have hall : ((fields.take eCap).filter
              (fun kv => !(strStartsWith kv.1 "__react"))).all
              (fun kv => valClean kv.2) = true :=
            List.all_eq_true.mpr (fun kv hkv =>
              List.all_eq_true.mp hobj kv
                (List.mem_of_mem_take (List.mem_of_mem_filter hkv)))
          simp only [safeSerialize, hha, hm, if_neg, Bool.false_eq_true,
            not_false_eq_true, if_false]
          simpa [outClean] using
            serFields_clean (safeSerialize h aCap eCap d) (fun v s => ih v s)
              _ (a :: seen) hall

/-- Claim C10, counterexample: on the input string "[Function: f]" the
serializer returns that very string (the `typeof obj !== 'object'` early
return echoes it), so it is not true that the serializer never returns a
string of the form `[Function: ...]`. -/
theorem c10_counterexample :
    (safeSerializeRS (fun _ => HObj.plainObj []) 3
        (JsVal.vStr "[Function: f]") []).1 = SerOut.oStr "[Function: f]" ∧
      strStartsWith "[Function: f]" "[Function: " = true :=
  ⟨rfl, rfl⟩

/-- Claim C10, amended: the serializer never constructs the function
placeholder.  A function-typed value satisfies the `typeof obj !== 'object'`
early return and is returned unchanged, and when no input string (in the value
or anywhere in the heap) begins with `[Function: `, no output string does
either — so the function-placeholder branch is unreachable; `[Function: ...]`
text can appear in the output only when echoed verbatim from the input. -/
theorem c10_theorem :
    (∀ (h : Heap) (aCap eCap d a : Nat) (nm : String) (seen : List Nat),
        h a = HObj.funcObj nm →
        safeSerialize h aCap eCap d (JsVal.vRef a) seen =
          (SerOut.oFun a nm, seen)) ∧
    (∀ (h : Heap) (aCap eCap : Nat), heapClean h →
        ∀ (d : Nat) (v : JsVal) (seen : List Nat), valClean v = true →
          outClean (safeSerialize h aCap eCap d v seen).1 = true) := by
  constructor
  · intro h aCap eCap d a nm seen hha
    cases d <;> simp [safeSerialize, hha]
  · intro h aCap eCap hh d v seen hv
    exact safeSerialize_clean h aCap eCap hh d v seen hv

/-- Claim C10, witness: a function value at address 0 is echoed unchanged, and
on a clean heap the output of a clean value stays clean. -/
theorem c10_witness :
    (safeSerialize (fun _ => HObj.funcObj "f") 10 20 3 (JsVal.vRef 0) [] =
        (SerOut.oFun 0 "f", [])) ∧
      outClean (safeSerialize (fun _ => HObj.funcObj "f") 10 20 3
        (JsVal.vStr "ok") []).1 = true :=
  ⟨c10_theorem.1 (fun _ => HObj.funcObj "f") 10 20 3 0 "f" [] rfl,
   c10_theorem.2 (fun _ => HObj.funcObj "f") 10 20 (fun _ => rfl) 3
     (JsVal.vStr "ok") [] rfl⟩

/-- Claim C8: for every value — including objects that reference themselves —
the serializer is a total function (the embedding terminates structurally on
the depth bound, mirroring the source where every recursive call decreases
`maxDepth`), a revisited object yields the `[Circular]` placeholder, an
exhausted depth cap yields `[Max Depth]`, and a directly self-referential
object serializes its self-field to `[Circular]` instead of recursing. -/
theorem c8_theorem :
    (∀ (h : Heap) (aCap eCap d a : Nat) (seen : List Nat),
        (∀ nm, h a ≠ HObj.funcObj nm) → a ∈ seen →
        safeSerialize h aCap eCap d (JsVal.vRef a) seen =
          (SerOut.oStr "[Circular]", seen)) ∧
    (∀ (h : Heap) (aCap eCap a : Nat) (seen : List Nat),
        (∀ nm, h a ≠ HObj.funcObj nm) → a ∉ seen →
        safeSerialize h aCap eCap 0 (JsVal.vRef a) seen =
          (SerOut.oStr "[Max Depth]", a :: seen)) ∧
    (∀ (h : Heap) (aCap eCap d a : Nat) (k : String) (seen : List Nat),
        h a = HObj.plainObj [(k, JsVal.vRef a)] →
        strStartsWith k "__react" = false → a ∉ seen →
        safeSerialize h aCap (eCap + 1) (d + 1) (JsVal.vRef a) seen =
          (SerOut.oObj [(k, SerOut.oStr "[Circular]")], a :: seen)) := by
  refine ⟨?_, ?_, ?_⟩
  · intro h aCap eCap d a seen hfn hm
    cases hha : h a with
    | funcObj nm => exact absurd hha (hfn nm)
    | arrObj items => cases d <;> simp [safeSerialize, hha, hm]
    | reactElt => cases d <;> simp [safeSerialize, hha, hm]
    | domNode => cases d <;> simp [safeSerialize, hha, hm]
    | plainObj fields => cases d <;> simp [safeSerialize, hha, hm]
  · intro h aCap eCap a seen hfn hm
    cases hha : h a with
    | funcObj nm => exact absurd hha (hfn nm)
    | arrObj items => simp [safeSerialize, hha, hm]
    | reactElt => simp [safeSerialize, hha, hm]
    | domNode => simp [safeSerialize, hha, hm]
    | plainObj fields => simp [safeSerialize, hha, hm]
  · intro h aCap eCap d a k seen hha hk hm
    simp [safeSerialize, hha, hm, hk, serFields, List.take, List.filter]

/-- Claim C8, witness: the concrete heap whose object 0 has a single field
`self` pointing back at itself serializes (at the source's state depth) to an
object whose `self` field is the `[Circular]` placeholder. -/
theorem c8_witness :
    safeSerialize (fun _ => HObj.plainObj [("self", JsVal.vRef 0)]) 10
        (19 + 1) (1 + 1) (JsVal.vRef 0) [] =
      (SerOut.oObj [("self", SerOut.oStr "[Circular]")], [0]) :=
  c8_theorem.2.2 (fun _ => HObj.plainObj [("self", JsVal.vRef 0)]) 10 19 1 0
    "self" [] rfl rfl (List.not_mem_nil 0)

/-- One renderer entry as reported by `attach`
(src/src/ReactSession.ts lines 192-228). -/
structure RendererEntry where
  id : Nat
  name : Option String
  version : Option String
  bundleType : Option Nat
deriving Repr, DecidableEq

/-- Page effects performed by `ensureBackendInjected`/`attach`, in order. -/
inductive PEffect where
  | bypassCSP
  | evalOnNewDocument
  | evalHasRenderers
  | evalRuntimeInject
  | reload
  | evalListRenderers
deriving Repr, DecidableEq

/-- Observable behavior of the page during one `ensureBackendInjected` run:
the three renderer checks (lines 107, 138, 154 of src/src/ReactSession.ts),
whether the runtime-injection evaluate, the reload and the post-reload check
resolve, and what the renderer-listing evaluate of `attach` (lines 186-228)
returns. -/
structure InjectBehavior where
  hasRenderers1 : Bool
  runtimeInjectOk : Bool
  hasRenderers2 : Bool
  reloadOk : Bool
  postReloadCheckOk : Bool
  hasRenderers3 : Bool
  rendererList : List RendererEntry
deriving Repr, DecidableEq

/-- Outcome of `ensureBackendInjected`: the thrown error message if any, the
new `#backendInjected` flag, and the page effects performed. -/
structure EnsureOutcome where
  err : Option String
  injected : Bool
  trace : List PEffect
deriving Repr, DecidableEq

/-- Embedding of `ensureBackendInjected` (src/src/ReactSession.ts lines
44-173).  If `#backendInjected` is already set it returns immediately with no
page effects.  Otherwise it bypasses CSP, registers the preload script, checks
for renderers; if none, it re-injects at runtime, checks again, and if still
none performs exactly one reload and a final check.  Note that the flag is set
to `true` at line 162 regardless of whether any renderer ever registered; a
throw from the runtime evaluate, the reload, or the post-reload check is
wrapped into the `Failed to inject...` error (lines 164-172) and leaves the
flag unset. -/
def ensureBackendInjected (inj : Bool) (b : InjectBehavior) : EnsureOutcome :=
  if inj then ⟨none, inj, []⟩
  else
    let t0 := [PEffect.bypassCSP, PEffect.evalOnNewDocument,
               PEffect.evalHasRenderers]
    if b.hasRenderers1 then ⟨none, true, t0⟩
    else if !b.runtimeInjectOk then
      ⟨some "Failed to inject React DevTools backend", false,
       t0 ++ [PEffect.evalRuntimeInject]⟩
    else
      let t1 := t0 ++ [PEffect.evalRuntimeInject, PEffect.evalHasRenderers]
      if b.hasRenderers2 then ⟨none, true, t1⟩
      else if !b.reloadOk then
        ⟨some "Failed to inject React DevTools backend", false,
         t1 ++ [PEffect.reload]⟩
      else if !b.postReloadCheckOk then
        ⟨some "Failed to inject React DevTools backend", false,
         t1 ++ [PEffect.reload, PEffect.evalHasRenderers]⟩
      else ⟨none, true, t1 ++ [PEffect.reload, PEffect.evalHasRenderers]⟩

/-- The result shape of `attach` (`ReactAttachResult`). -/
structure AttachResult where
  attached : Bool
  renderers : List RendererEntry
  message : Option String
deriving Repr, DecidableEq

/-- Embedding of `attach` (src/src/ReactSession.ts lines 175-234): run
`ensureBackendInjected`; on a throw return `attached:false` with the failure
message and no renderers; otherwise list the renderers registered on the hook
and return `attached:true`.  Returns the result together with the new
`#backendInjected` flag and the page-effect trace. -/
def attach (inj : Bool) (b : InjectBehavior) :
    AttachResult × Bool × List PEffect :=
  let e := ensureBackendInjected inj b
  match e.err with
  | some m => (⟨false, [], some m⟩, e.injected, e.trace)
  | none =>
    (⟨true, b.rendererList, none⟩, e.injected,
     e.trace ++ [PEffect.evalListRenderers])

/-- Scenario B of the spec: the target runtime is absent, so the hook never
registers a renderer — every renderer check is false, but all page operations
succeed and the renderer listing is empty. -/
def runtimeAbsentBehavior : InjectBehavior :=
  ⟨false, true, false, true, true, false, []⟩

/-- Claim C2, counterexample: with the target runtime absent (hook never
registers a renderer, injection sequence completes without error) `attach`
returns `attached := true` with an empty renderer list — not the
`attached:false` the claim requires. -/
theorem c2_counterexample :
    (attach false runtimeAbsentBehavior).1.attached = true ∧
      (attach false runtimeAbsentBehavior).1.renderers = [] ∧
      (attach false runtimeAbsentBehavior).1.attached ≠ false := by
  refine ⟨rfl, rfl, ?_⟩
  decide

/-- Claim C2, amended: when the hook never registers because the target
runtime is absent, `attach` does not throw: if the injection sequence itself
completes without error it returns `{attached := true, renderers := []}`
(in particular for the runtime-absent behavior), and it returns
`{attached := false, renderers := [], message := some m}` exactly when the
injection sequence throws. -/
theorem c2_theorem :
    (∀ b : InjectBehavior, b.rendererList = [] →
        (ensureBackendInjected false b).err = none →
        (attach false b).1 = ⟨true, [], none⟩) ∧
    (∀ (inj : Bool) (b : InjectBehavior) (m : String),
        (ensureBackendInjected inj b).err = some m →
        (attach inj b).1 = ⟨false, [], some m⟩) ∧
    (attach false runtimeAbsentBehavior).1 = ⟨true, [], none⟩ := by
  refine ⟨?_, ?_, rfl⟩
  · intro b hlist herr
    simp [attach, herr, hlist]
  · intro inj b m herr
    simp [attach, herr]

/-- Claim C2, witness: the amended behavior evaluated at the runtime-absent
scenario and at a behavior whose runtime injection throws. -/
theorem c2_witness :
    (attach false runtimeAbsentBehavior).1 = ⟨true, [], none⟩ ∧
      (attach false ⟨false, false, false, true, true, false, []⟩).1 =
        ⟨false, [], some "Failed to inject React DevTools backend"⟩ :=
  ⟨c2_theorem.1 runtimeAbsentBehavior rfl rfl,
   c2_theorem.2.1 false ⟨false, false, false, true, true, false, []⟩
     "Failed to inject React DevTools backend" rfl⟩

/-- Claim C5: if the first `attach` reports `attached:true`, then the flag is
set, and a second `attach` (under any page behavior, since no navigation
resets the flag) again reports `attached:true`, performs no reload — its only
page effect is the renderer-listing evaluate — because `ensureBackendInjected`
returns immediately once `#backendInjected` is set. -/
theorem c5_theorem :
    ∀ (inj : Bool) (b b' : InjectBehavior),
      (attach inj b).1.attached = true →
      ((attach (attach inj b).2.1 b').1.attached = true ∧
        (attach (attach inj b).2.1 b').2.2 = [PEffect.evalListRenderers] ∧
        PEffect.reload ∉ (attach (attach inj b).2.1 b').2.2) := by
  intro inj b b' hfirst
  have herr : (ensureBackendInjected inj b).err = none := by
    cases h : (ensureBackendInjected inj b).err with
    | none => rfl
    | some m => simp [attach, h] at hfirst
  have hinjected : (ensureBackendInjected inj b).injected = true := by
    unfold ensureBackendInjected at herr ⊢
    split_ifs at herr ⊢ with h1 h2 h3 h4 h5 h6 <;> simp_all
  have hinj : (attach inj b).2.1 = true := by
    simp [attach, herr, hinjected]
  rw [hinj]
  have heq : attach true b' =
      (⟨true, b'.rendererList, none⟩, true, [PEffect.evalListRenderers]) := rfl
  rw [heq]
  refine ⟨rfl, rfl, ?_⟩
  intro hmem
  simp only [List.mem_singleton] at hmem
  exact absurd hmem (by decide)

/-- Claim C5, witness: a first successful `attach` (renderers already present)
followed by a second call — the second reports attached and performs no
reload. -/
theorem c5_witness :
    (attach (attach false ⟨true, true, true, true, true, true, []⟩).2.1
        ⟨true, true, true, true, true, true, []⟩).1.attached = true ∧
      (attach (attach false ⟨true, true, true, true, true, true, []⟩).2.1
        ⟨true, true, true, true, true, true, []⟩).2.2 =
        [PEffect.evalListRenderers] ∧
      PEffect.reload ∉
        (attach (attach false ⟨true, true, true, true, true, true, []⟩).2.1
          ⟨true, true, true, true, true, true, []⟩).2.2 :=
  c5_theorem false ⟨true, true, true, true, true, true, []⟩
    ⟨true, true, true, true, true, true, []⟩ rfl

/-- Truthiness of an optional string (`undefined` or the empty string are falsy). -/
def truthyStr : Option String → Bool
  | some s => s ≠ ""
  | none => false

/-- JS `a || b` on optional strings: keep `a` when truthy, else `b`. -/
def orStr (a b : Option String) : Option String :=
  if truthyStr a then a else b

/-- JS `a || d` ending in a string literal default. -/
def jsStrOr (a : Option String) (d : String) : String :=
  match a with
  | some s => if s = "" then d else s
  | none => d

/-- The authored-component fiber tags `[0, 1, 11, 15]` (FunctionComponent,
ClassComponent, ForwardRef, MemoComponent). -/
def componentTags : List Nat := [0, 1, 11, 15]

/-- JS `String(value)` for our value domain.  References are rendered as
`[object Object]` (a modelling simplification: JS arrays and functions
stringify differently, but the values reaching this conversion in the source
are the `data-inspector-*` string props). -/
def jsToString : JsVal → String
  | .vStr s => s
  | .vInt n => toString n
  | .vBool true => "true"
  | .vBool false => "false"
  | .vNull => "null"
  | .vUndef => "undefined"
  | .vRef _ => "[object Object]"

/-- Leading decimal digits of a character list, if any. -/
def digitsPre (cs : List Char) : Option Nat :=
  let ds := cs.takeWhile Char.isDigit
  if ds.isEmpty then none
  else some (ds.foldl (fun n c => n * 10 + (c.toNat - 48)) 0)

/-- Model of JS `parseInt(s, 10)`: skip leading spaces, optional sign, then
leading decimal digits; `none` models `NaN`. -/
def parseIntJs (s : String) : Option Int :=
  match s.data.dropWhile (fun c => c == ' ') with
  | '-' :: rest => (digitsPre rest).map (fun n => -(n : Int))
  | '+' :: rest => (digitsPre rest).map (fun n => (n : Int))
  | rest => (digitsPre rest).map (fun n => (n : Int))

/-- Property read `v[k]` (`none` models `undefined`). -/
def propGet (h : Heap) (v : JsVal) (k : String) : Option JsVal :=
  match v with
  | .vRef a =>
    match h a with
    | .plainObj fs => (fs.find? (fun kv => kv.1 == k)).map (fun kv => kv.2)
    | _ => none
  | _ => none

/-- Truthiness of an optional value. -/
def truthyO : Option JsVal → Bool
  | some v => jsTruthy v
  | none => false

/-- The source-location record built by `extractSource`.  A `lineNumber` of
`none` collapses JS `undefined` and `NaN` (both falsy and rendered as `?`). -/
structure SourceLoc where
  fileName : Option JsVal
  lineNumber : Option Int
  columnNumber : Option Int
deriving Repr, DecidableEq

/-- Embedding of `extractSource` (src/src/ReactSession.ts lines 535-552, same
shape in src/src/McpResponse.ts lines 841-855 and 1002-1016): read the three
`data-inspector-*` props; if any is truthy return a record keeping truthy
fields (`fileName || undefined`) and `parseInt`-ing truthy line/column. -/
def extractSource (h : Heap) (props : JsVal) : Option SourceLoc :=
  if !(jsTruthy props) then none
  else
    let fileName := propGet h props "data-inspector-relative-path"
    let line := propGet h props "data-inspector-line"
    let col := propGet h props "data-inspector-column"
    if truthyO fileName || truthyO line || truthyO col then
      some ⟨if truthyO fileName then fileName else none,
            (if truthyO line then line else none).bind
              (fun v => parseIntJs (jsToString v)),
            (if truthyO col then col else none).bind
              (fun v => parseIntJs (jsToString v))⟩
    else none

/-- The fiber fields consulted by the single-node resolver
(src/src/McpResponse.ts lines 925-1046): the tag, the name sources of
`getComponentName`, and the props/state values. -/
structure FiberLite where
  tag : Nat
  typeDisplayName : Option String
  typeName : Option String
  elementTypeName : Option String
  renderDisplayName : Option String
  renderName : Option String
  typeTypeDisplayName : Option String
  typeTypeName : Option String
  memoizedProps : JsVal
  memoizedState : JsVal
deriving Repr, DecidableEq

/-- Embedding of the resolver's `getComponentName`
(src/src/McpResponse.ts lines 954-967): developer-assigned `displayName`
first, then tag-specific name resolution with a generic fallback. -/
def getComponentNameM (f : FiberLite) : String :=
  if truthyStr f.typeDisplayName then jsStrOr f.typeDisplayName ""
  else if f.tag = 0 ∨ f.tag = 1 then
    jsStrOr (orStr f.typeName f.elementTypeName) "Anonymous"
  else if f.tag = 11 then
    jsStrOr (orStr f.renderDisplayName f.renderName) "ForwardRef"
  else if f.tag = 15 then
    jsStrOr (orStr f.typeTypeDisplayName f.typeTypeName) "Memo"
  else "Unknown"

/-- Embedding of the resolver's `getComponentType`
(src/src/McpResponse.ts lines 969-977). -/
def getComponentTypeM (tag : Nat) : String :=
  if tag = 0 then "FunctionComponent"
  else if tag = 1 then "ClassComponent"
  else if tag = 11 then "ForwardRef"
  else if tag = 15 then "MemoComponent"
  else "UnknownTag(" ++ toString tag ++ ")"

/-- The upward fiber walk of the resolver (src/src/McpResponse.ts lines
939-947): the chain lists the fiber found on the element followed by its
`return` ancestors; the walk stops at the first authored component, at the end
of the chain (`fiber` became null), or when the 20-step budget runs out —
in which case the source proceeds with whatever non-component fiber it stopped
on.  Returns the remaining chain (`[]` models `fiber === null`). -/
def walkToComponent : List FiberLite → Nat → List FiberLite
  | [], _ => []
  | c, 0 => c
  | f :: rest, Nat.succ s =>
    if componentTags.contains f.tag then f :: rest
    else walkToComponent rest s

/-- One entry of the owners chain. -/
structure Owner where
  name : String
  type : String
  source : Option SourceLoc
deriving Repr, DecidableEq

/-- Embedding of the owners walk (src/src/McpResponse.ts lines 1018-1033):
walk upward from the component's parent collecting authored components only;
`maxOwners` is decremented only when a component is collected. -/
def collectOwners (h : Heap) : List FiberLite → Nat → List Owner
  | [], _ => []
  | f :: rest, m =>
    if m = 0 then []
    else if componentTags.contains f.tag then
      ⟨getComponentNameM f, getComponentTypeM f.tag,
       extractSource h f.memoizedProps⟩ :: collectOwners h rest (m - 1)
    else collectOwners h rest m

/-- The component payload returned on success
(src/src/McpResponse.ts lines 1035-1045). -/
structure ComponentOut where
  name : String
  type : String
  props : Option SerOut
  state : Option SerOut
  source : Option SourceLoc
  owners : List Owner
deriving Repr

/-- Outcome of the CDP steps preceding the in-page extraction: the
`DOM.resolveNode` call throws, returns no usable object, resolves to an
element without a React fiber, or resolves to an element whose fiber chain
(fiber itself followed by its `return` ancestors) is given. -/
inductive ResolveOutcome where
  | throwErr (msg : String)
  | noObject
  | elemNoFiber
  | elemFiber (chain : List FiberLite)
deriving Repr

/-- The JSON payload appended by the tool. -/
structure ToolOut where
  success : Bool
  error : Option String
  component : Option ComponentOut
deriving Repr

/-- Embedding of `getReactComponentFromBackendNodeId`
(src/src/McpResponse.ts lines 889-1059): any throw is caught and reported as
`{success:false, error}` (lines 1051-1057); an unresolvable backend reference
reports `{success:false, error}` (lines 913-920); an element without a fiber
or a chain that walks off the root reports `{success:false, error}`; otherwise
the component payload is extracted. -/
def getReactComponentFromBackendNodeId (h : Heap) (o : ResolveOutcome) :
    ToolOut :=
  match o with
  | .throwErr m => ⟨false, some m, none⟩
  | .noObject =>
    ⟨false, some "Failed to resolve backendNodeId to DOM element", none⟩
  | .elemNoFiber => ⟨false, some "Element has no React fiber", none⟩
  | .elemFiber chain =>
    match walkToComponent chain 20 with
    | [] => ⟨false, some "No React component found in fiber tree", none⟩
    | f :: rest =>
      ⟨true, none,
       some ⟨getComponentNameM f, getComponentTypeM f.tag,
             if jsTruthy f.memoizedProps then
               some (safeSerializeMR h 3 f.memoizedProps []).1
             else none,
             if jsTruthy f.memoizedState then
               some (safeSerializeMR h 2 f.memoizedState []).1
             else none,
             extractSource h f.memoizedProps,
             collectOwners h rest 10⟩⟩

/-- A host-element fiber with no component anywhere above it. -/
def hostLite : FiberLite :=
  ⟨5, none, none, none, none, none, none, none, JsVal.vNull, JsVal.vNull⟩

/-- An empty heap for concrete scenarios. -/
def emptyHeap : Heap := fun _ => HObj.plainObj []

/-- Claim C7, counterexample: an element whose fiber chain consists of 21
non-component fibers carries no component association, yet the tool reports
`success: true` (with an `Unknown` placeholder component): the 20-step walk
stops on a non-component fiber which the source then treats as the found
component, instead of the claimed `{success:false, error}`. -/
theorem c7_counterexample :
    (getReactComponentFromBackendNodeId emptyHeap
        (ResolveOutcome.elemFiber (List.replicate 21 hostLite))).success =
      true ∧
    (getReactComponentFromBackendNodeId emptyHeap
        (ResolveOutcome.elemFiber (List.replicate 21 hostLite))).error =
      none ∧
    (List.replicate 21 hostLite).all
      (fun f => !(componentTags.contains f.tag)) = true := by
  refine ⟨rfl, rfl, ?_⟩
  decide

/-- Claim C7, amended: every resolution failure (thrown CDP call, unresolvable
backend reference, element without a React fiber) and every component-free
chain that ends within the 20-step budget yields `{success:false, error}`;
the output is always a well-formed result (never an unhandled fault) — but a
component-free chain longer than 20 fibers exhausts the budget and is reported
as `success:true` with a placeholder component. -/
theorem c7_theorem :
    (∀ (h : Heap) (m : String),
        getReactComponentFromBackendNodeId h (.throwErr m) =
          ⟨false, some m, none⟩) ∧
    (∀ h : Heap,
        getReactComponentFromBackendNodeId h .noObject =
          ⟨false, some "Failed to resolve backendNodeId to DOM element",
           none⟩) ∧
    (∀ h : Heap,
        getReactComponentFromBackendNodeId h .elemNoFiber =
          ⟨false, some "Element has no React fiber", none⟩) ∧
    (∀ (h : Heap) (chain : List FiberLite),
        chain.all (fun f => !(componentTags.contains f.tag)) = true →
        chain.length ≤ 20 →
        getReactComponentFromBackendNodeId h (.elemFiber chain) =
          ⟨false, some "No React component found in fiber tree", none⟩) ∧
    (∀ (h : Heap) (o : ResolveOutcome),
        (getReactComponentFromBackendNodeId h o).success = true ∨
          ((getReactComponentFromBackendNodeId h o).success = false ∧
            (getReactComponentFromBackendNodeId h o).error.isSome = true)) := by
  have hwalk : ∀ (chain : List FiberLite) (steps : Nat),
      chain.all (fun f => !(componentTags.contains f.tag)) = true →
      chain.length ≤ steps → walkToComponent chain steps = [] := by
    intro chain
    induction chain with
    | nil => intro steps _ _; cases steps <;> rfl
    | cons f rest ih =>
      intro steps hall hlen
      cases steps with
      | zero => simp at hlen
      | succ s =>
        simp only [List.all_cons, Bool.and_eq_true, Bool.not_eq_true'] at hall
        simp only [walkToComponent, hall.1, Bool.false_eq_true, if_false]
        exact ih s (List.all_eq_true.mpr
          (fun x hx => List.all_eq_true.mp hall.2 x hx))
          (by simpa using Nat.le_of_succ_le_succ (by simpa using hlen))
  refine ⟨fun h m => rfl, fun h => rfl, fun h => rfl, ?_, ?_⟩
  · intro h chain hall hlen
    simp [getReactComponentFromBackendNodeId, hwalk chain 20 hall hlen]
  · intro h o
    cases o with
    | throwErr m => right; exact ⟨rfl, rfl⟩
    | noObject => right; exact ⟨rfl, rfl⟩
    | elemNoFiber => right; exact ⟨rfl, rfl⟩
    | elemFiber chain =>
      cases hw : walkToComponent chain 20 with
      | nil =>
        right
        constructor <;> simp [getReactComponentFromBackendNodeId, hw]
      | cons f rest =>
        left
        simp [getReactComponentFromBackendNodeId, hw]

/-- Claim C7, witness: a stale reference (resolution failure) and a
single-host chain both produce `{success:false, error}`. -/
theorem c7_witness :
    getReactComponentFromBackendNodeId emptyHeap .noObject =
      ⟨false, some "Failed to resolve backendNodeId to DOM element", none⟩ ∧
    getReactComponentFromBackendNodeId emptyHeap
        (.elemFiber [hostLite]) =
      ⟨false, some "No React component found in fiber tree", none⟩ :=
  ⟨c7_theorem.2.1 emptyHeap,
   c7_theorem.2.2.2.1 emptyHeap [hostLite] (by decide) (by decide)⟩

/-- The three correlation markers written onto a DOM element by the tagging
pass (`__axRole`, `__axName`, `data-ax-backend-id`); the empty string models a
falsy/absent marker value. -/
structure MarkerInfo where
  role : String
  name : String
  backendId : String
deriving Repr, DecidableEq

/-- The `{role, name}` record stored in `axNodeMap`
(src/src/ReactSession.ts lines 408-422). -/
structure AxInfo where
  role : Option String
  name : Option String
deriving Repr, DecidableEq

/-- The fiber fields consulted by the component-map walk
(src/src/ReactSession.ts lines 498-812): the tag, the name sources of
`getComponentName` (lines 507-532), `fiber.type` when it is a host tag string,
the identity of the `stateNode` DOM element (`none` models a missing
stateNode), and the props/state values. -/
structure FiberInfo where
  tag : Nat
  typeDisplayName : Option String
  typeName : Option String
  elementTypeName : Option String
  renderDisplayName : Option String
  renderName : Option String
  elementTypeRenderName : Option String
  typeTypeDisplayName : Option String
  typeTypeName : Option String
  elementTypeTypeName : Option String
  typeStr : Option String
  elemId : Option Nat
  memoizedProps : JsVal
  memoizedState : JsVal
deriving Repr, DecidableEq

/-- A fiber subtree.  The source walks `child`/`sibling` pointers and collects
them into arrays; we model the sibling chain as the `children` list.  The
source's `processedFibers` WeakSet guard can never fire on a tree (every node
is visited exactly once), so it has no counterpart here. -/
inductive Fiber where
  | mk (info : FiberInfo) (children : List Fiber)
deriving Repr

/-- Embedding of the walk's `getComponentName`
(src/src/ReactSession.ts lines 507-532); unlike the resolver's copy this one
has the `elementType` fallbacks. -/
def getComponentNameRS (i : FiberInfo) : String :=
  if truthyStr i.typeDisplayName then jsStrOr i.typeDisplayName ""
  else if i.tag = 0 ∨ i.tag = 1 then
    jsStrOr (orStr i.typeName i.elementTypeName) "Anonymous"
  else if i.tag = 11 then
    jsStrOr (orStr i.renderDisplayName
      (orStr i.renderName i.elementTypeRenderName)) "ForwardRef"
  else if i.tag = 15 then
    jsStrOr (orStr i.typeTypeDisplayName
      (orStr i.typeTypeName i.elementTypeTypeName)) "Memo"
  else "Unknown"

/-- The host-element part of `getA11yInfo`
(src/src/ReactSession.ts lines 578-588): for a tag-5 fiber with a stateNode,
read the element's markers and return them if any is truthy. -/
def readHostMarkers (mk : Nat → Option MarkerInfo) : Fiber → Option MarkerInfo
  | .mk i _ =>
    if i.tag = 5 then
      match i.elemId with
      | some e =>
        match mk e with
        | some m =>
          if m.role ≠ "" || m.name ≠ "" || m.backendId ≠ "" then some m
          else none
        | none => none
      | none => none
    else none

mutual

/-- Embedding of `getA11yInfo` (src/src/ReactSession.ts lines 577-604): a host
element reports its own markers; an authored component searches its children
first-child-then-sibling, recursing only through this same function — so the
search descends through authored components and reads host elements without
entering them; every other fiber kind yields nothing. -/
def getA11yInfo (mk : Nat → Option MarkerInfo) : Fiber → Option MarkerInfo
  | .mk i cs =>
    match readHostMarkers mk (.mk i cs) with
    | some m => some m
    | none =>
      if i.tag ∈ componentTags then firstChildInfo mk cs else none

/-- The `while (child) { ... child = child.sibling }` loop of `getA11yInfo`. -/
def firstChildInfo (mk : Nat → Option MarkerInfo) :
    List Fiber → Option MarkerInfo
  | [] => none
  | c :: rest =>
    match getA11yInfo mk c with
    | some m => some m
    | none => firstChildInfo mk rest

end

mutual

/-- The fibers `getA11yInfo` inspects on behalf of a component, in visit
order: hosts are kept as leaves (their subtrees are never entered) and the
search recurses only through authored-component children. -/
def searchCandidates : Fiber → List Fiber
  | .mk i cs =>
    if i.tag = 5 then [.mk i cs]
    else if i.tag ∈ componentTags then searchCandidatesList cs
    else []

def searchCandidatesList : List Fiber → List Fiber
  | [] => []
  | c :: rest => searchCandidates c ++ searchCandidatesList rest

end

mutual

/-- Full pre-order enumeration of a fiber subtree (node before children,
left-to-right). -/
def preorderAll : Fiber → List Fiber
  | .mk i cs => .mk i cs :: preorderAllList cs

def preorderAllList : List Fiber → List Fiber
  | [] => []
  | c :: rest => preorderAll c ++ preorderAllList rest

end

/-- All proper descendants of a fiber in pre-order. -/
def preorderDesc : Fiber → List Fiber
  | .mk _ cs => preorderAllList cs

/-- Modelled from the spec: "the first host-element descendant found by
recursive first-child-then-sibling pre-order search of that instance's fiber
subtree" — the first tag-5 fiber in the full pre-order of the subtree, with
the accessibility info read from it. -/
def specFirstHostInfo (mk : Nat → Option MarkerInfo) (f : Fiber) :
    Option MarkerInfo :=
  match (preorderDesc f).find?
      (fun g => match g with | .mk i _ => i.tag == 5) with
  | some g => readHostMarkers mk g
  | none => none

theorem findSome?_append {α β : Type} (f : α → Option β) :
    ∀ l1 l2 : List α, (l1 ++ l2).findSome? f =
      match l1.findSome? f with
      | some b => some b
      | none => l2.findSome? f := by
  intro l1 l2
  induction l1 with
  | nil => simp [List.findSome?]
  | cons a as ih =>
    simp only [List.cons_append, List.findSome?_cons]
    cases f a with
    | some b => rfl
    | none => exact ih

mutual

theorem getA11yInfo_eq_findSome (mk : Nat → Option MarkerInfo) (f : Fiber) :
    getA11yInfo mk f = (searchCandidates f).findSome? (readHostMarkers mk) := by
  cases f with
  | mk i cs =>
    by_cases h5 : i.tag = 5
    · have hnc : ¬ i.tag ∈ componentTags := by rw [h5]; decide
      cases hm : readHostMarkers mk (.mk i cs) with
      | some m =>
        simp [getA11yInfo, searchCandidates, h5, hm, List.findSome?]
      | none =>
        simp [getA11yInfo, searchCandidates, h5, hm, hnc, List.findSome?,
          componentTags]
    · have hr : readHostMarkers mk (.mk i cs) = none := by
        simp [readHostMarkers, h5]
      by_cases hcomp : i.tag ∈ componentTags
      · simp only [getA11yInfo, searchCandidates, hr, if_neg h5,
          if_pos hcomp]
        exact firstChildInfo_eq_findSome mk cs
      · simp [getA11yInfo, searchCandidates, hr, h5, hcomp, List.findSome?]

theorem firstChildInfo_eq_findSome (mk : Nat → Option MarkerInfo)
    (cs : List Fiber) :
    firstChildInfo mk cs =
      (searchCandidatesList cs).findSome? (readHostMarkers mk) := by
  cases cs with
  | nil => simp [firstChildInfo, searchCandidatesList, List.findSome?]
  | cons c rest =>
    simp only [firstChildInfo, searchCandidatesList]
    rw [findSome?_append, getA11yInfo_eq_findSome mk c]
    cases (searchCandidates c).findSome? (readHostMarkers mk) with
    | some m => rfl
    | none => exact firstChildInfo_eq_findSome mk rest

end

/-- A fiber info record with a given tag and element, everything else empty. -/
def bareInfo (tag : Nat) (elemId : Option Nat) : FiberInfo :=
  ⟨tag, none, none, none, none, none, none, none, none, none, none, elemId,
   JsVal.vNull, JsVal.vNull⟩

/-- A tagged host button under a Fragment (tag 7) under a function component:
the markers on element 1 are visible to a full pre-order search but not to
`getA11yInfo`, which does not descend through the Fragment. -/
def c1Fiber : Fiber :=
  .mk (bareInfo 0 none) [.mk (bareInfo 7 none) [.mk (bareInfo 5 (some 1)) []]]

/-- Markers as written by the tagging pass for element 1. -/
def c1Markers : Nat → Option MarkerInfo :=
  fun e => if e = 1 then some ⟨"button", "Sign up", "1"⟩ else none

/-- Claim C1, counterexample: for a component whose only child is a Fragment
containing a marker-carrying host button, the first host-element descendant
found by pre-order search of the subtree carries `role=button` info, but
`getA11yInfo` returns none — the search does not descend through non-component
fibers, so the accessibility info is not in general read from the first
host-element descendant of the subtree. -/
theorem c1_counterexample :
    getA11yInfo c1Markers c1Fiber = none ∧
      specFirstHostInfo c1Markers c1Fiber = some ⟨"button", "Sign up", "1"⟩ ∧
      getA11yInfo c1Markers c1Fiber ≠ specFirstHostInfo c1Markers c1Fiber := by
  refine ⟨rfl, rfl, ?_⟩
  intro h
  rw [show getA11yInfo c1Markers c1Fiber = none from rfl,
    show specFirstHostInfo c1Markers c1Fiber =
      some ⟨"button", "Sign up", "1"⟩ from rfl] at h
  exact Option.noConfusion h

/-- Claim C1, amended: the accessibility info of an authored component is the
first marker-carrying host element found by a first-child-then-sibling
pre-order search that descends only through authored-component fibers and
reads host elements without entering their subtrees (`searchCandidates` lists
the inspected fibers in visit order).  Since the result is a single optional
marker record, at most one `[role=... name=...]` annotation can be attached to
an authored-component line. -/
theorem c1_theorem :
    ∀ (mk : Nat → Option MarkerInfo) (f : Fiber),
      getA11yInfo mk f =
        (searchCandidates f).findSome? (readHostMarkers mk) :=
  fun mk f => getA11yInfo_eq_findSome mk f

/-- Evaluable model of JS `Array.join(sep)` / `String.intercalate`. -/
def joinSep (sep : String) : List String → String
  | [] => ""
  | [x] => x
  | x :: xs => x ++ sep ++ joinSep sep xs

/-- Model of JS `value.slice(0, n)` on strings. -/
def strTake (s : String) (n : Nat) : String :=
  String.mk (s.data.take n)

/-- One replacement step list: non-overlapping left-to-right replacement of
`pat` by `rep`, fuelled by the input length (the fuel is a termination device;
it never runs out because each step consumes at least one character). -/
def replaceAllGo (pat rep : List Char) : Nat → List Char → List Char
  | _, [] => []
  | 0, cs => cs
  | Nat.succ fuel, c :: cs =>
    if listIsPre pat (c :: cs) then
      rep ++ replaceAllGo pat rep fuel (List.drop (pat.length - 1) cs)
    else c :: replaceAllGo pat rep fuel cs

/-- Evaluable model of JS `s.replace(/pat/g, rep)` for plain-text patterns. -/
def replaceAll (s pat rep : String) : String :=
  String.mk (replaceAllGo pat.data rep.data s.data.length s.data)

/-- The child-prefix conversion of the walk (src/src/ReactSession.ts lines 722
and 783): replace the parent's branch connector by a continuation glyph,
textually on the prefix. -/
def childPrefixOf (pfx : String) : String :=
  replaceAll (replaceAll pfx "├─" "│ ") "└─" "  "

/-- Model of JS `Object.keys(v)`: field names of plain objects, index strings
for arrays and strings, nothing for other values. -/
def objKeys (h : Heap) : JsVal → List String
  | .vRef a =>
    match h a with
    | .plainObj fs => fs.map (fun kv => kv.1)
    | .arrObj items => (List.range items.length).map (fun n => toString n)
    | _ => []
  | .vStr s => (List.range s.length).map (fun n => toString n)
  | _ => []

/-- The per-prop one-line format of the walk (src/src/ReactSession.ts lines
660-678): strings quoted and truncated at 20 characters, numbers and booleans
inline, functions as `{fn}`, null/undefined inline, objects elided.  (The
source's final `else` arm for exotic `typeof`s has no inhabitant in this value
domain.) -/
def formatProp (h : Heap) (props : JsVal) (key : String) : String :=
  match propGet h props key with
  | some (.vStr s) =>
    key ++ "=\"" ++ (if s.length > 20 then strTake s 20 ++ "..." else s) ++ "\""
  | some (.vInt n) => key ++ "=\x7b" ++ toString n ++ "\x7d"
  | some (.vBool b) =>
    key ++ "=\x7b" ++ (if b then "true" else "false") ++ "\x7d"
  | some (.vRef a) =>
    match h a with
    | .funcObj _ => key ++ "=\x7bfn\x7d"
    | _ => key ++ "=\x7b...\x7d"
  | some .vNull => key ++ "=\x7bnull\x7d"
  | some .vUndef => key ++ "=\x7bundefined\x7d"
  | none => key ++ "=\x7bundefined\x7d"

/-- The props-summary segment of a component line (src/src/ReactSession.ts
lines 654-686): at most three non-internal, non-children keys. -/
def propsSeg (h : Heap) (props : JsVal) : String :=
  if jsTruthy props then
    let propsKeys := (objKeys h props).filter (fun k =>
      !(strStartsWith k "__react") && !(strStartsWith k "data-inspector") &&
        !(strStartsWith k "data-function") && k ≠ "children")
    let toShow := (propsKeys.take 3).map (formatProp h props)
    if toShow.isEmpty then "" else " \x7b" ++ joinSep ", " toShow ++ "\x7d"
  else ""

/-- JSON string escaping (quotes, backslashes and newlines; the values in this
domain need no more). -/
def jsonEscapeChar (c : Char) : List Char :=
  if c == Char.ofNat 34 then [Char.ofNat 92, c]
  else if c == Char.ofNat 92 then [c, c]
  else if c == Char.ofNat 10 then [Char.ofNat 92, Char.ofNat 110]
  else [c]

/-- A JSON-quoted string. -/
def jsonQuote (s : String) : String :=
  "\"" ++ String.mk (s.data.foldr (fun c acc => jsonEscapeChar c ++ acc) []) ++
    "\""

mutual

/-- Model of `JSON.stringify` on serializer outputs: `none` models the JS
result `undefined` (top-level `undefined` or function), functions and
`undefined` inside arrays become `null`, and such object fields are omitted. -/
def jsonStringify : SerOut → Option String
  | .oStr s => some (jsonQuote s)
  | .oInt n => some (toString n)
  | .oBool true => some "true"
  | .oBool false => some "false"
  | .oNull => some "null"
  | .oUndef => none
  | .oFun _ _ => none
  | .oArr items => some ("[" ++ joinSep "," (jsonArrItems items) ++ "]")
  | .oObj fields =>
    some ("\x7b" ++ joinSep "," (jsonObjFields fields) ++ "\x7d")

def jsonArrItems : List SerOut → List String
  | [] => []
  | o :: os => ((jsonStringify o).getD "null") :: jsonArrItems os

def jsonObjFields : List (String × SerOut) → List String
  | [] => []
  | kv :: kvs =>
    (match jsonStringify kv.2 with
     | some s => [jsonQuote kv.1 ++ ":" ++ s]
     | none => []) ++ jsonObjFields kvs

end

/-- The state segment of a component line (src/src/ReactSession.ts lines
689-697).  `none` models the one way this code can throw: when
`JSON.stringify` returns `undefined` (a function-valued `memoizedState`) the
source dereferences `stateStr.length` and the page evaluate rejects. -/
def stateSeg (h : Heap) (includeState : Bool) (stv : JsVal) : Option String :=
  if includeState && jsTruthy stv then
    match jsonStringify (safeSerializeRS h 1 stv []).1 with
    | none => none
    | some s =>
      some (if s.length < 50 then " state=" ++ s else " state=\x7b...\x7d")
  else some ""

/-- The accessibility-annotation segment of a line (src/src/ReactSession.ts
lines 700-707, same construction in the host branch at lines 772-778): at most
one bracket group, built from the single optional marker record. -/
def ariaSegment (a : Option MarkerInfo) : String :=
  match a with
  | some m =>
    if m.role ≠ "" || m.name ≠ "" then
      let parts :=
        (if m.role ≠ "" then ["role=\"" ++ m.role ++ "\""] else []) ++
          (if m.name ≠ "" then ["name=\"" ++ m.name ++ "\""] else [])
      if parts.isEmpty then "" else " [" ++ joinSep " " parts ++ "]"
    else ""
  | none => ""

/-- `${n || '?'}` on an optional number (0 and NaN/undefined render as `?`). -/
def numOrQ : Option Int → String
  | some n => if n = 0 then "?" else toString n
  | none => "?"

/-- The source-location segment of a component line
(src/src/ReactSession.ts lines 710-717). -/
def srcSeg (src : Option SourceLoc) : String :=
  match src with
  | none => ""
  | some loc =>
    match loc.fileName with
    | none => ""
    | some fv =>
      " (" ++ jsToString fv ++ ":" ++ numOrQ loc.lineNumber ++ ":" ++
        numOrQ loc.columnNumber ++ ")"

/-- Lookup in `a11yHierarchyObj[backendId]` (`|| []`). -/
def hierLookup (hier : List (Nat × List Nat)) (bid : Int) : List Nat :=
  match hier.find? (fun p => ((p.1 : Int)) == bid) with
  | some p => p.2
  | none => []

/-- Lookup in `axNodeMapObj[childId]`. -/
def axLookup (axMap : List (Nat × AxInfo)) (cid : Nat) : Option AxInfo :=
  (axMap.find? (fun p => p.1 == cid)).map (fun p => p.2)

/-- The accessibility-only child lines inserted under a component line
(src/src/ReactSession.ts lines 725-748): children of the associated element
that are in the accessibility map, not already claimed by some authored
component, and semantically interesting. -/
def a11yOnlyLines (axMap : List (Nat × AxInfo)) (hier : List (Nat × List Nat))
    (claimed : List Int) (childPfx : String) (a : Option MarkerInfo) :
    List String :=
  match a with
  | some m =>
    if m.backendId ≠ "" then
      match parseIntJs m.backendId with
      | some bid =>
        let a11yChildren := hierLookup hier bid
        let onlyIds := a11yChildren.filter (fun cid =>
          match axLookup axMap cid with
          | some cinfo =>
            !(claimed.contains ((cid : Int))) &&
              isSemanticOrInteractive cinfo.role
          | none => false)
        onlyIds.filterMap (fun cid =>
          (axLookup axMap cid).map (fun cinfo =>
            childPfx ++ "├─ " ++ "[" ++
              joinSep " "
                ((if truthyStr cinfo.role then
                    ["role=\"" ++ cinfo.role.getD "" ++ "\""] else []) ++
                 (if truthyStr cinfo.name then
                    ["name=\"" ++ cinfo.name.getD "" ++ "\""] else [])) ++
              "]"))
      | none => []
    else []
  | none => []

/-- The claimed-set update at a component (src/src/ReactSession.ts lines
645-648): `backendIdsWithComponents.add(parseInt(backendId, 10))`; a `NaN`
result can never equal a child id, so it is not recorded. -/
def claimedAdd (claimed : List Int) (a : Option MarkerInfo) : List Int :=
  match a with
  | some m =>
    if m.backendId ≠ "" then
      match parseIntJs m.backendId with
      | some n => n :: claimed
      | none => claimed
    else claimed
  | none => claimed

/-- Mutable state of the walk: the running claimed set
(`backendIdsWithComponents`) and the emitted lines. -/
structure WalkSt where
  claimed : List Int
  lines : List String
deriving Repr

/-- Read-only environment of the walk: the `includeState` argument, the two
accessibility maps passed into the page evaluate, the element markers written
by the tagging pass, and the value heap. -/
structure WalkEnv where
  includeState : Bool
  axMap : List (Nat × AxInfo)
  hier : List (Nat × List Nat)
  markers : Nat → Option MarkerInfo
  heap : Heap

mutual

/-- Embedding of `walkFiber` (src/src/ReactSession.ts lines 632-812).  An
authored component emits one line (prefix, name, props summary, optional state
summary, optional accessibility annotation, optional source location), inserts
the accessibility-only child lines, then walks its children left to right with
branch/leaf connectors; a host element emits a line only when it alone carries
a semantic annotation, and is otherwise transparent; every other fiber kind is
transparent.  The `Option` result is the crash monad for the one throwing
statement modelled by `stateSeg`. -/
def walkFiber (env : WalkEnv) :
    Fiber → Nat → String → Bool → WalkSt → Option WalkSt
  | .mk i cs, depth, pfx, isLast, st =>
    if i.tag ∈ componentTags then
      let name := getComponentNameRS i
      let source := extractSource env.heap i.memoizedProps
      let a11y := getA11yInfo env.markers (.mk i cs)
      let claimed1 := claimedAdd st.claimed a11y
      match stateSeg env.heap env.includeState i.memoizedState with
      | none => none
      | some sseg =>
        let line := pfx ++ name ++ propsSeg env.heap i.memoizedProps ++ sseg ++
          ariaSegment a11y ++ srcSeg source
        let childPfx := childPrefixOf pfx
        let aLines := a11yOnlyLines env.axMap env.hier claimed1 childPfx a11y
        walkChildren env cs depth childPfx
          ⟨claimed1, st.lines ++ [line] ++ aLines⟩
    else if i.tag = 5 then
      let a11y := getA11yInfo env.markers (.mk i cs)
      match a11y with
      | some m =>
        if m.role ≠ "" && isSemanticOrInteractive (some m.role) then
          let name := jsStrOr i.typeStr "HostElement"
          let line := pfx ++ name ++ ariaSegment (some m)
          walkChildren env cs depth (childPrefixOf pfx)
            ⟨st.claimed, st.lines ++ [line]⟩
        else walkThrough env cs depth pfx isLast st
      | none => walkThrough env cs depth pfx isLast st
    else walkThrough env cs depth pfx isLast st

/-- The `children.forEach` of the component and host branches: each child gets
the child prefix extended with a branch (`├─`) or leaf (`└─`) connector. -/
def walkChildren (env : WalkEnv) :
    List Fiber → Nat → String → WalkSt → Option WalkSt
  | [], _, _, st => some st
  | c :: rest, depth, cpfx, st =>
    let isLastChild := rest.isEmpty
    let connector := if isLastChild then "└─" else "├─"
    match walkFiber env c (depth + 1) (cpfx ++ connector ++ " ") isLastChild
        st with
    | none => none
    | some st2 => walkChildren env rest depth cpfx st2

/-- The transparent traversal (`while (child) { walkFiber(child, depth,
prefix, isLast); child = child.sibling }`) of the non-emitting branches. -/
def walkThrough (env : WalkEnv) :
    List Fiber → Nat → String → Bool → WalkSt → Option WalkSt
  | [], _, _, _, st => some st
  | c :: rest, depth, pfx, isLast, st =>
    match walkFiber env c depth pfx isLast st with
    | none => none
    | some st2 => walkThrough env rest depth pfx isLast st2

end

/-- The hook state visible to the page evaluate: the renderer ids in iteration
order and, per renderer, the committed fiber roots (each root's `current`
fiber, which may be null). -/
structure Hook where
  renderers : List Nat
  fiberRoots : Nat → List (Option Fiber)

/-- The `roots.forEach` of src/src/ReactSession.ts lines 820-831: the header
lines are pushed when the first root is seen (even if its `current` fiber is
null), then the root fiber is walked. -/
def walkRootList (env : WalkEnv) :
    List (Option Fiber) → Bool × WalkSt → Option (Bool × WalkSt)
  | [], acc => some acc
  | r :: rest, (foundAny, st) =>
    let (foundAny1, st1) :=
      if !foundAny then
        (true, ⟨st.claimed, st.lines ++ ["React Component Tree:", ""]⟩)
      else (foundAny, st)
    match r with
    | some fib =>
      match walkFiber env fib 0 "" true st1 with
      | none => none
      | some st2 => walkRootList env rest (foundAny1, st2)
    | none => walkRootList env rest (foundAny1, st1)

/-- The `hook.renderers.forEach` of src/src/ReactSession.ts lines 816-832:
renderers with no committed roots are skipped. -/
def walkRenderers (env : WalkEnv) (hk : Hook) :
    List Nat → Bool × WalkSt → Option (Bool × WalkSt)
  | [], acc => some acc
  | id :: rest, acc =>
    let roots := hk.fiberRoots id
    if roots.isEmpty then walkRenderers env hk rest acc
    else
      match walkRootList env roots acc with
      | none => none
      | some acc2 => walkRenderers env hk rest acc2

/-- Embedding of the page evaluate of `getComponentMap`
(src/src/ReactSession.ts lines 498-838): a missing hook reports an error
result; otherwise the fiber roots are walked and, if none was found, the
explicit no-roots error result is returned.  The outer `Option` is the crash
monad (a rejected evaluate). -/
def componentMapEval (includeState : Bool) (axMap : List (Nat × AxInfo))
    (hier : List (Nat × List Nat)) (hook : Option Hook)
    (markers : Nat → Option MarkerInfo) (heap : Heap) :
    Option (Except String (List String)) :=
  match hook with
  | none => some (Except.error "React DevTools hook not found or no renderers")
  | some hk =>
    let env : WalkEnv := ⟨includeState, axMap, hier, markers, heap⟩
    match walkRenderers env hk hk.renderers (false, ⟨[], []⟩) with
    | none => none
    | some (foundAny, st) =>
      if !foundAny then some (Except.error "No React roots found")
      else some (Except.ok st.lines)

/-- One node of the flat CDP accessibility tree
(`Accessibility.getFullAXTree`), with the fields `takeSnapshot` reads
(src/src/ReactSession.ts lines 328-380); the additional accessibility
properties it copies (value, description, ...) are not read by
`getComponentMap` and are omitted. -/
structure CdpNode where
  nodeId : String
  ignored : Bool
  role : Option String
  name : Option String
  backendDOMNodeId : Option Nat
  childIds : List String
deriving Repr, DecidableEq

/-- A processed snapshot node (src/src/ReactSession.ts lines 345-351): the
absent-children case is modelled by the empty list. -/
inductive ProcNode where
  | mk (role name : Option String) (uid : String)
       (backendDOMNodeId : Option Nat) (children : List ProcNode)
deriving Repr

/-- The backend id of a processed node. -/
def ProcNode.backendId : ProcNode → Option Nat
  | .mk _ _ _ b _ => b

/-- `nodeMap.get(id)`: the final content of a JS `Map` built by repeated
`set` is the last written value. -/
def nodeMapGet (nodes : List CdpNode) (id : String) : Option CdpNode :=
  (nodes.filter (fun n => n.nodeId == id)).getLast?

/-- `childrenMap.get(id) || []`: set only for nodes with nonempty `childIds`
(src/src/ReactSession.ts lines 332-335). -/
def childrenMapGet (nodes : List CdpNode) (id : String) : List String :=
  match (nodes.filter (fun n => n.nodeId == id && !n.childIds.isEmpty)).getLast?
      with
  | some n => n.childIds
  | none => []

/-- The child loop of `processNode` (src/src/ReactSession.ts lines 364-377):
look each child id up, process it, and drop missing or filtered children; the
uid counter is threaded in processing order. -/
def processList (f : CdpNode → Nat → Option ProcNode × Nat)
    (nodes : List CdpNode) : List String → Nat → List ProcNode × Nat
  | [], ctr => ([], ctr)
  | cid :: cids, ctr =>
    match nodeMapGet nodes cid with
    | some cn =>
      let (o, ctr1) := f cn ctr
      let (os, ctr2) := processList f nodes cids ctr1
      (match o with | some p => p :: os | none => os, ctr2)
    | none => processList f nodes cids ctr

/-- Embedding of `processNode` (src/src/ReactSession.ts lines 339-380):
non-verbose snapshots prune ignored nodes; each kept node receives the uid
`snapshotId_counter`.  The fuel argument is a termination device only — the JS
recursion is unbounded, and the caller passes the node count, which bounds the
depth of every acyclic child graph. -/
def processNode (verbose : Bool) (nodes : List CdpNode) (sid : String) :
    Nat → CdpNode → Nat → Option ProcNode × Nat
  | 0, _, ctr => (none, ctr)
  | Nat.succ fuel, node, ctr =>
    if !verbose && node.ignored then (none, ctr)
    else
      let uid := sid ++ "_" ++ toString ctr
      let childIds := childrenMapGet nodes node.nodeId
      let (children, ctr2) :=
        processList (fun cn c => processNode verbose nodes sid fuel cn c)
          nodes childIds (ctr + 1)
      (some (.mk node.role node.name uid node.backendDOMNodeId children), ctr2)

/-- The snapshot result (src/src/ReactSession.ts lines 391-394). -/
structure Snapshot where
  root : Option ProcNode
  snapshotId : String

/-- Embedding of `takeSnapshot` (src/src/ReactSession.ts lines 308-395): null
when the accessibility subsystem yields no nodes; otherwise the first node is
taken as the root and processed, with `Date.now()` (the `now` argument) as the
snapshot id.  Note the root may be processed to null (ignored root, verbose
false) while the snapshot itself is non-null. -/
def takeSnapshot (nodes : List CdpNode) (verbose : Bool) (now : Nat) :
    Option Snapshot :=
  if nodes.isEmpty then none
  else
    match nodes.head? with
    | none => none
    | some rootNode =>
      let sid := toString now
      let (root, _) := processNode verbose nodes sid nodes.length rootNode 0
      some ⟨root, sid⟩

/-- `Map.set` on an association list: replace in place if the key exists,
append otherwise. -/
def upsertAx (m : List (Nat × AxInfo)) (k : Nat) (v : AxInfo) :
    List (Nat × AxInfo) :=
  if m.any (fun p => p.1 == k) then
    m.map (fun p => if p.1 == k then (k, v) else p)
  else m ++ [(k, v)]

/-- `Map.set` for the hierarchy map. -/
def upsertHier (m : List (Nat × List Nat)) (k : Nat) (v : List Nat) :
    List (Nat × List Nat) :=
  if m.any (fun p => p.1 == k) then
    m.map (fun p => if p.1 == k then (k, v) else p)
  else m ++ [(k, v)]

mutual

/-- Embedding of `buildAxMap` (src/src/ReactSession.ts lines 408-422):
pre-order over the processed tree, recording `{role, name}` for every node
with a truthy backend id. -/
def buildAxMap : ProcNode → List (Nat × AxInfo) → List (Nat × AxInfo)
  | .mk role name _ bid children, acc =>
    let acc1 :=
      match bid with
      | some b => if b ≠ 0 then upsertAx acc b ⟨role, name⟩ else acc
      | none => acc
    buildAxMapList children acc1

def buildAxMapList : List ProcNode → List (Nat × AxInfo) → List (Nat × AxInfo)
  | [], acc => acc
  | c :: rest, acc => buildAxMapList rest (buildAxMap c acc)

end

mutual

/-- Embedding of `buildA11yHierarchy` (src/src/ReactSession.ts lines
425-440): note the recursion into children happens only under the truthy
backend-id check, so a subtree below an id-less node contributes nothing; the
node's own entry is written after the recursion (last write wins). -/
def buildA11yHierarchy :
    ProcNode → List (Nat × List Nat) → List (Nat × List Nat)
  | .mk _ _ _ bid children, acc =>
    match bid with
    | some b =>
      if b ≠ 0 then
        let childIds := children.filterMap (fun c =>
          match c.backendId with
          | some cb => if cb ≠ 0 then some cb else none
          | none => none)
        upsertHier (buildHierList children acc) b childIds
      else acc
    | none => acc

def buildHierList : List ProcNode → List (Nat × List Nat) → List (Nat × List Nat)
  | [], acc => acc
  | c :: rest, acc => buildHierList rest (buildA11yHierarchy c acc)

end

/-- Embedding of the DOM tagging pass (src/src/ReactSession.ts lines
461-491): iterate the accessibility map, skip non-semantic roles before any
CDP call, skip unresolvable nodes, and write the three markers (role and name
defaulted to the empty string, the backend id stringified by `setAttribute`)
onto the resolved element. -/
def tagWrites (resolvable : Nat → Bool) (axMap : List (Nat × AxInfo)) :
    List (Nat × MarkerInfo) :=
  axMap.filterMap (fun p =>
    if isSemanticOrInteractive p.2.role then
      if resolvable p.1 then
        some (p.1, ⟨p.2.role.getD "", p.2.name.getD "", toString p.1⟩)
      else none
    else none)

/-- Marker lookup among this call's writes. -/
def markerLookup (ws : List (Nat × MarkerInfo)) (e : Nat) : Option MarkerInfo :=
  (ws.find? (fun p => p.1 == e)).map (fun p => p.2)

/-- The element markers after the tagging pass: this call's writes overlaid on
whatever markers previous calls left on the page. -/
def overlayMarkers (ws : List (Nat × MarkerInfo))
    (m0 : Nat → Option MarkerInfo) : Nat → Option MarkerInfo :=
  fun e =>
    match markerLookup ws e with
    | some m => some m
    | none => m0 e

/-- The page state `getComponentMap` reads: the flat accessibility node list,
which backend ids `DOM.resolveNode` can resolve, the devtools hook, and the
value heap backing props and state. -/
structure PageState where
  axNodes : List CdpNode
  resolvable : Nat → Bool
  hook : Option Hook
  heap : Heap

/-- Embedding of `getComponentMap` (src/src/ReactSession.ts lines 397-850):
take a snapshot (null propagates as a null result), build the correlation and
adjacency maps, run the tagging pass (whose markers persist on the page and
are returned alongside the result), evaluate the walk, and render either
`"Error: <reason>"` or the joined lines.  `Except.error` models the two ways
the call can throw: a null processed root crashes `buildAxMap`
(`node.backendDOMNodeId` on null), and a rejected page evaluate propagates. -/
def getComponentMap (st : PageState) (verbose includeState : Bool) (now : Nat)
    (m0 : Nat → Option MarkerInfo) :
    Except String (Option String) × (Nat → Option MarkerInfo) :=
  match takeSnapshot st.axNodes verbose now with
  | none => (Except.ok none, m0)
  | some snap =>
    match snap.root with
    | none =>
      (Except.error "TypeError: Cannot read properties of null", m0)
    | some root =>
      let axMap := buildAxMap root []
      let hier := buildA11yHierarchy root []
      let ws := tagWrites st.resolvable axMap
      let markers := overlayMarkers ws m0
      match componentMapEval includeState axMap hier st.hook markers
          st.heap with
      | none => (Except.error "page evaluate rejected", markers)
      | some (Except.error e) => (Except.ok (some ("Error: " ++ e)), markers)
      | some (Except.ok lines) =>
        (Except.ok (some (joinSep "\n" lines)), markers)

theorem walkRenderers_empty (env : WalkEnv) (hk : Hook) :
    ∀ (ids : List Nat) (acc : Bool × WalkSt),
      (∀ id ∈ ids, hk.fiberRoots id = []) →
      walkRenderers env hk ids acc = some acc := by
  intro ids
  induction ids with
  | nil => intro acc _; rfl
  | cons id rest ih =>
    intro acc hall
    have h1 : hk.fiberRoots id = [] := hall id (List.mem_cons_self id rest)
    simp only [walkRenderers, h1, List.isEmpty_nil, if_true]
    exact ih acc (fun i hi => hall i (List.mem_cons_of_mem _ hi))

theorem componentMapEval_noRoots (incl : Bool) (axMap : List (Nat × AxInfo))
    (hier : List (Nat × List Nat)) (hk : Hook)
    (markers : Nat → Option MarkerInfo) (heap : Heap)
    (hroots : ∀ id ∈ hk.renderers, hk.fiberRoots id = []) :
    componentMapEval incl axMap hier (some hk) markers heap =
      some (Except.error "No React roots found") := by
  simp only [componentMapEval]
  rw [walkRenderers_empty _ hk hk.renderers (false, ⟨[], []⟩) hroots]
  rfl

theorem processNode_verbose_some (nodes : List CdpNode) (sid : String)
    (f : Nat) (node : CdpNode) (ctr : Nat) :
    (processNode true nodes sid (Nat.succ f) node ctr).1.isSome = true := by
  simp [processNode]

theorem takeSnapshot_cons (n : CdpNode) (ns : List CdpNode) (verbose : Bool)
    (now : Nat) :
    takeSnapshot (n :: ns) verbose now =
      some ⟨(processNode verbose (n :: ns) (toString now)
        (n :: ns).length n 0).1, toString now⟩ := by
  simp [takeSnapshot]

/-- The snapshot retains the root node: always for a verbose snapshot, and for
a non-verbose one exactly when the root CDP node is not flagged ignored.  This
is also the condition under which `getComponentMap` does not throw before the
walk: a pruned root makes `buildAxMap(snapshot.root)` dereference null
(src/src/ReactSession.ts line 422). -/
def rootKept (verbose : Bool) (nodes : List CdpNode) : Bool :=
  match nodes.head? with
  | some n => verbose || !n.ignored
  | none => false

theorem processNode_kept_some (verbose : Bool) (nodes : List CdpNode)
    (sid : String) (f : Nat) (node : CdpNode) (ctr : Nat)
    (hkept : (verbose || !node.ignored) = true) :
    (processNode verbose nodes sid (Nat.succ f) node ctr).1.isSome = true := by
  cases verbose with
  | true => simp [processNode]
  | false =>
    simp only [Bool.false_or, Bool.not_eq_true'] at hkept
    simp [processNode, hkept]

/-- A page state with an empty accessibility node list and no fiber roots. -/
def c6EmptyState : PageState :=
  ⟨[], fun _ => true, some ⟨[1], fun _ => []⟩, emptyHeap⟩

/-- Claim C6, counterexample: with no fiber root found at all but an empty
accessibility node list, `get_component_map` returns null (the snapshot is
null), not the "Error: No React roots found" string the claim requires for
every such invocation. -/
theorem c6_counterexample :
    (getComponentMap c6EmptyState true false 0 (fun _ => none)).1 =
      Except.ok none ∧
    (Except.ok (none : Option String) : Except String (Option String)) ≠
      Except.ok (some "Error: No React roots found") := by
  refine ⟨rfl, ?_⟩
  intro h
  exact Option.noConfusion (Except.ok.inj h)

/-- Claim C6, amended: for any verbosity, when the snapshot retains the root
node (always for a verbose snapshot, and for a non-verbose one when the root
CDP node is not flagged ignored — otherwise `buildAxMap` dereferences the null
root and the call throws a TypeError), the hook is present, and no renderer
has any committed fiber root, `get_component_map` reports exactly the string
"Error: No React roots found" (a nonempty string, not an empty tree); when the
accessibility node list is empty it returns null instead. -/
theorem c6_theorem :
    ∀ (st : PageState) (hk : Hook) (verbose includeState : Bool) (now : Nat)
      (m0 : Nat → Option MarkerInfo),
      rootKept verbose st.axNodes = true →
      st.hook = some hk →
      (∀ id ∈ hk.renderers, hk.fiberRoots id = []) →
      ((getComponentMap st verbose includeState now m0).1 =
          Except.ok (some "Error: No React roots found") ∧
        "Error: No React roots found" ≠ "") := by
  intro st hk verbose incl now m0 hkr hhook hroots
  refine ⟨?_, by decide⟩
  obtain ⟨n, ns, hax⟩ : ∃ n ns, st.axNodes = n :: ns := by
    cases h : st.axNodes with
    | nil => rw [h] at hkr; simp [rootKept] at hkr
    | cons a l => exact ⟨a, l, rfl⟩
  have hkn : (verbose || !n.ignored) = true := by
    rw [hax] at hkr
    simpa [rootKept] using hkr
  have hsome := processNode_kept_some verbose (n :: ns) (toString now)
    ns.length n 0 hkn
  obtain ⟨root, hroot⟩ := Option.isSome_iff_exists.mp hsome
  simp only [getComponentMap, hax, takeSnapshot_cons]
  rw [show (n :: ns).length = Nat.succ ns.length from rfl]
  rw [hroot]
  simp only [hhook,
    componentMapEval_noRoots incl _ _ hk _ _ hroots]
  rfl

/-- A one-node page with a hook that has a renderer but no committed roots. -/
def c6WitnessState : PageState :=
  ⟨[⟨"1", false, some "RootWebArea", some "t", some 1, []⟩],
   fun _ => true, some ⟨[1], fun _ => []⟩, emptyHeap⟩

/-- Claim C6, witness: the amended behavior at a concrete one-node page with
no roots, exercised with a non-verbose snapshot whose root is not ignored. -/
theorem c6_witness :
    (getComponentMap c6WitnessState false false 7 (fun _ => none)).1 =
        Except.ok (some "Error: No React roots found") ∧
      "Error: No React roots found" ≠ "" :=
  c6_theorem c6WitnessState ⟨[1], fun _ => []⟩ false false 7 (fun _ => none)
    rfl rfl (fun id _ => rfl)

mutual

/-- No fiber in the subtree has a function value as its `memoizedState` (the
one shape that makes the walk's state rendering throw). -/
def noFunState (h : Heap) : Fiber → Bool
  | .mk i cs => !(isFunVal h i.memoizedState) && noFunStateList h cs

def noFunStateList (h : Heap) : List Fiber → Bool
  | [] => true
  | c :: rest => noFunState h c && noFunStateList h rest

end

theorem jsonStringify_serialize_top (h : Heap) (v : JsVal)
    (hv : jsTruthy v = true) (hf : isFunVal h v = false) :
    ∃ s, jsonStringify (safeSerializeRS h 1 v []).1 = some s := by
  cases v with
  | vNull => simp [jsTruthy] at hv
  | vUndef => simp [jsTruthy] at hv
  | vStr s => exact ⟨_, rfl⟩
  | vInt n => exact ⟨_, rfl⟩
  | vBool b =>
    cases b with
    | true => exact ⟨_, rfl⟩
    | false => simp [jsTruthy] at hv
  | vRef a =>
    cases hha : h a with
    | funcObj nm => simp [isFunVal, hha] at hf
    | arrObj items =>
      have h1 : (safeSerializeRS h 1 (.vRef a) []).1 =
          SerOut.oArr (serSeq (safeSerialize h 10 20 0) (items.take 10) [a]).1
          := by
        simp [safeSerializeRS, safeSerialize, hha]
      rw [h1]; exact ⟨_, rfl⟩
    | reactElt =>
      have h1 : (safeSerializeRS h 1 (.vRef a) []).1 =
          SerOut.oStr "[React Element]" := by
        simp [safeSerializeRS, safeSerialize, hha]
      rw [h1]; exact ⟨_, rfl⟩
    | domNode =>
      have h1 : (safeSerializeRS h 1 (.vRef a) []).1 =
          SerOut.oStr "[DOM Node]" := by
        simp [safeSerializeRS, safeSerialize, hha]
      rw [h1]; exact ⟨_, rfl⟩
    | plainObj fields =>
      have h1 : (safeSerializeRS h 1 (.vRef a) []).1 =
          SerOut.oObj (serFields (safeSerialize h 10 20 0)
            ((fields.take 20).filter
              (fun kv => !(strStartsWith kv.1 "__react"))) [a]).1 := by
        simp [safeSerializeRS, safeSerialize, hha]
      rw [h1]; exact ⟨_, rfl⟩

theorem stateSeg_some (h : Heap) (includeState : Bool) (stv : JsVal)
    (hc : includeState = false ∨ isFunVal h stv = false) :
    ∃ s, stateSeg h includeState stv = some s := by
  cases hi : includeState with
  | false => exact ⟨"", by simp [stateSeg]⟩
  | true =>
    cases hv : jsTruthy stv with
    | false => exact ⟨"", by simp [stateSeg, hv]⟩
    | true =>
      have hf : isFunVal h stv = false := by
        cases hc with
        | inl hl => rw [hi] at hl; exact absurd hl (by decide)
        | inr hr => exact hr
      obtain ⟨s, hs⟩ := jsonStringify_serialize_top h stv hv hf
      refine ⟨if s.length < 50 then " state=" ++ s else " state=\x7b...\x7d",
        ?_⟩
      simp [stateSeg, hv, hs]

mutual

theorem walkFiber_isSome (env : WalkEnv) (f : Fiber) (depth : Nat)
    (pfx : String) (isLast : Bool) (st : WalkSt)
    (hs : env.includeState = false ∨ noFunState env.heap f = true) :
    (walkFiber env f depth pfx isLast st).isSome = true := by
  cases f with
  | mk i cs =>
    have hcs : env.includeState = false ∨
        noFunStateList env.heap cs = true := by
      cases hs with
      | inl hl => exact Or.inl hl
      | inr hr =>
        right
        simp only [noFunState, Bool.and_eq_true] at hr
        exact hr.2
    by_cases hct : i.tag ∈ componentTags
    · have hseg : ∃ sseg,
          stateSeg env.heap env.includeState i.memoizedState = some sseg := by
        apply stateSeg_some
        cases hs with
        | inl hl => exact Or.inl hl
        | inr hr =>
          right
          simp only [noFunState, Bool.and_eq_true, Bool.not_eq_true'] at hr
          exact hr.1
      obtain ⟨sseg, hseg⟩ := hseg
      simp only [walkFiber, hct, if_pos, hseg]
      exact walkChildren_isSome env cs depth (childPrefixOf pfx) _ hcs
    · by_cases h5 : i.tag = 5
      · simp only [walkFiber, hct, h5, if_pos, if_neg, if_false]
        cases ha : getA11yInfo env.markers (.mk i cs) with
        | some m =>
          by_cases hsem :
              (m.role ≠ "" && isSemanticOrInteractive (some m.role)) = true
          · simp only [hsem, if_pos, if_true]
            exact walkChildren_isSome env cs depth (childPrefixOf pfx) _ hcs
          · simp only [Bool.not_eq_true] at hsem
            simp only [hsem, Bool.false_eq_true, if_false]
            exact walkThrough_isSome env cs depth pfx isLast st hcs
        | none => exact walkThrough_isSome env cs depth pfx isLast st hcs
      · simp only [walkFiber, hct, h5, if_false]
        exact walkThrough_isSome env cs depth pfx isLast st hcs

theorem walkChildren_isSome (env : WalkEnv) (cs : List Fiber) (depth : Nat)
    (cpfx : String) (st : WalkSt)
    (hs : env.includeState = false ∨ noFunStateList env.heap cs = true) :
    (walkChildren env cs depth cpfx st).isSome = true := by
  cases cs with
  | nil => rfl
  | cons c rest =>
    have hc : env.includeState = false ∨ noFunState env.heap c = true := by
      cases hs with
      | inl hl => exact Or.inl hl
      | inr hr =>
        right
        simp only [noFunStateList, Bool.and_eq_true] at hr
        exact hr.1
    have hrest : env.includeState = false ∨
        noFunStateList env.heap rest = true := by
      cases hs with
      | inl hl => exact Or.inl hl
      | inr hr =>
        right
        simp only [noFunStateList, Bool.and_eq_true] at hr
        exact hr.2
    obtain ⟨st2, h2⟩ := Option.isSome_iff_exists.mp
      (walkFiber_isSome env c (depth + 1)
        (cpfx ++ (if rest.isEmpty then "└─" else "├─") ++ " ")
        rest.isEmpty st hc)
    simp only [walkChildren, h2]
    exact walkChildren_isSome env rest depth cpfx st2 hrest

theorem walkThrough_isSome (env : WalkEnv) (cs : List Fiber) (depth : Nat)
    (pfx : String) (isLast : Bool) (st : WalkSt)
    (hs : env.includeState = false ∨ noFunStateList env.heap cs = true) :
    (walkThrough env cs depth pfx isLast st).isSome = true := by
  cases cs with
  | nil => rfl
  | cons c rest =>
    have hc : env.includeState = false ∨ noFunState env.heap c = true := by
      cases hs with
      | inl hl => exact Or.inl hl
      | inr hr =>
        right
        simp only [noFunStateList, Bool.and_eq_true] at hr
        exact hr.1
    have hrest : env.includeState = false ∨
        noFunStateList env.heap rest = true := by
      cases hs with
      | inl hl => exact Or.inl hl
      | inr hr =>
        right
        simp only [noFunStateList, Bool.and_eq_true] at hr
        exact hr.2
    obtain ⟨st2, h2⟩ := Option.isSome_iff_exists.mp
      (walkFiber_isSome env c depth pfx isLast st hc)
    simp only [walkThrough, h2]
    exact walkThrough_isSome env rest depth pfx isLast st2 hrest

end

/-- Every root fiber of the list is state-safe. -/
def rootsOk (h : Heap) (roots : List (Option Fiber)) : Bool :=
  roots.all (fun r => match r with | some f => noFunState h f | none => true)

/-- Every committed root of every renderer is state-safe. -/
def hookStateOk (h : Heap) (hk : Hook) : Bool :=
  hk.renderers.all (fun id => rootsOk h (hk.fiberRoots id))

/-- State-safety of the whole page (trivially true without a hook). -/
def pageStateOk (st : PageState) : Bool :=
  match st.hook with
  | some hk => hookStateOk st.heap hk
  | none => true

theorem walkRootList_isSome (env : WalkEnv) (roots : List (Option Fiber))
    (acc : Bool × WalkSt)
    (hs : env.includeState = false ∨ rootsOk env.heap roots = true) :
    (walkRootList env roots acc).isSome = true := by
  induction roots generalizing acc with
  | nil => rfl
  | cons r rest ih =>
    cases r with
    | none =>
      have hrest : env.includeState = false ∨
          rootsOk env.heap rest = true := by
        cases hs with
        | inl hl => exact Or.inl hl
        | inr hx =>
          right
          simp only [rootsOk, List.all_cons, Bool.and_eq_true] at hx
          exact hx.2
      simp only [walkRootList]
      exact ih _ hrest
    | some fib =>
      have hsplit : env.includeState = false ∨
          (noFunState env.heap fib = true ∧ rootsOk env.heap rest = true) := by
        cases hs with
        | inl hl => exact Or.inl hl
        | inr hx =>
          right
          simp only [rootsOk, List.all_cons, Bool.and_eq_true] at hx
          exact hx
      have hf : env.includeState = false ∨ noFunState env.heap fib = true :=
        hsplit.imp id And.left
      have hrest : env.includeState = false ∨ rootsOk env.heap rest = true :=
        hsplit.imp id And.right
      obtain ⟨st2, h2⟩ := Option.isSome_iff_exists.mp
        (walkFiber_isSome env fib 0 "" true
          (if !acc.1 then
            ⟨acc.2.claimed, acc.2.lines ++ ["React Component Tree:", ""]⟩
           else acc.2) hf)
      cases acc with
      | mk foundAny stw =>
        cases hfa : foundAny with
        | false =>
          simp only [walkRootList, hfa, Bool.not_false, if_pos] at h2 ⊢
          simp only [h2]
          exact ih _ hrest
        | true =>
          simp only [walkRootList, hfa, Bool.not_true, Bool.false_eq_true,
            if_false] at h2 ⊢
          simp only [h2]
          exact ih _ hrest

theorem walkRenderers_isSome (env : WalkEnv) (hk : Hook) (ids : List Nat)
    (acc : Bool × WalkSt)
    (hs : env.includeState = false ∨
      ids.all (fun id => rootsOk env.heap (hk.fiberRoots id)) = true) :
    (walkRenderers env hk ids acc).isSome = true := by
  induction ids generalizing acc with
  | nil => rfl
  | cons id rest ih =>
    have h1 : env.includeState = false ∨
        rootsOk env.heap (hk.fiberRoots id) = true := by
      cases hs with
      | inl hl => exact Or.inl hl
      | inr hx =>
        right
        simp only [List.all_cons, Bool.and_eq_true] at hx
        exact hx.1
    have hrest : env.includeState = false ∨
        rest.all (fun i => rootsOk env.heap (hk.fiberRoots i)) = true := by
      cases hs with
      | inl hl => exact Or.inl hl
      | inr hx =>
        right
        simp only [List.all_cons, Bool.and_eq_true] at hx
        exact hx.2
    by_cases he : (hk.fiberRoots id).isEmpty = true
    · simp only [walkRenderers, he, if_pos, if_true]
      exact ih _ hrest
    · simp only [Bool.not_eq_true] at he
      obtain ⟨acc2, h2⟩ := Option.isSome_iff_exists.mp
        (walkRootList_isSome env (hk.fiberRoots id) acc h1)
      simp only [walkRenderers, he, Bool.false_eq_true, if_false, h2]
      exact ih _ hrest

/-- A page state with an empty accessibility node list (snapshot null). -/
def c9EmptyState : PageState :=
  ⟨[], fun _ => false, none, emptyHeap⟩

/-- Claim C9, counterexample: when the accessibility subsystem yields zero
nodes, `get_component_map` returns null (the snapshot null propagates at
src/src/ReactSession.ts lines 403-405), not a string. -/
theorem c9_counterexample :
    (getComponentMap c9EmptyState false true 3 (fun _ => none)).1 =
      Except.ok none ∧
    ∀ s : String,
      (Except.ok (none : Option String) : Except String (Option String)) ≠
        Except.ok (some s) :=
  ⟨rfl, fun _ h => Option.noConfusion (Except.ok.inj h)⟩

/-- Claim C9, amended: whenever the snapshot retains the root node (always
for a verbose snapshot; for a non-verbose one this requires the root CDP node
not to be flagged ignored, else `buildAxMap` dereferences the null root and
the call throws a TypeError) and — if state rendering was requested — no
visited fiber has a function value as its `memoizedState` (the other corner
where the in-page evaluate throws), `get_component_map` returns a string:
either the rendered tree text or `"Error: <reason>"`; when the accessibility
tree is empty it returns null instead. -/
theorem c9_theorem :
    ∀ (st : PageState) (verbose includeState : Bool) (now : Nat)
      (m0 : Nat → Option MarkerInfo),
      rootKept verbose st.axNodes = true →
      (includeState = true → pageStateOk st = true) →
      ∃ s, (getComponentMap st verbose includeState now m0).1 =
        Except.ok (some s) := by
  intro st verbose incl now m0 hkr hok
  obtain ⟨n, ns, hax⟩ : ∃ n ns, st.axNodes = n :: ns := by
    cases h : st.axNodes with
    | nil => rw [h] at hkr; simp [rootKept] at hkr
    | cons a l => exact ⟨a, l, rfl⟩
  have hkn : (verbose || !n.ignored) = true := by
    rw [hax] at hkr
    simpa [rootKept] using hkr
  have hsome := processNode_kept_some verbose (n :: ns) (toString now)
    ns.length n 0 hkn
  obtain ⟨root, hroot⟩ := Option.isSome_iff_exists.mp hsome
  simp only [getComponentMap, hax, takeSnapshot_cons]
  rw [show (n :: ns).length = Nat.succ ns.length from rfl]
  rw [hroot]
  cases hhook : st.hook with
  | none =>
    exact ⟨"Error: " ++ "React DevTools hook not found or no renderers",
      by simp [componentMapEval]⟩
  | some hk =>
    have hcond : incl = false ∨ hookStateOk st.heap hk = true := by
      cases hi : incl with
      | false => exact Or.inl rfl
      | true =>
        right
        have := hok hi
        simp only [pageStateOk, hhook] at this
        exact this
    obtain ⟨res, hres⟩ := Option.isSome_iff_exists.mp
      (walkRenderers_isSome
        ⟨incl, buildAxMap root [], buildA11yHierarchy root [],
         overlayMarkers (tagWrites st.resolvable (buildAxMap root [])) m0,
         st.heap⟩ hk hk.renderers (false, ⟨[], []⟩)
        (by
          cases hcond with
          | inl hl => exact Or.inl hl
          | inr hr => exact Or.inr hr))
    simp only [componentMapEval, hres]
    cases res with
    | mk foundAny stw =>
      cases foundAny with
      | false => exact ⟨"Error: " ++ "No React roots found", by simp⟩
      | true => exact ⟨joinSep "\n" stw.lines, by simp⟩

/-- A one-node page with one renderer owning one root whose fiber has no
function-valued state anywhere. -/
def c9WitnessState : PageState :=
  ⟨[⟨"1", false, some "RootWebArea", some "t", some 1, []⟩],
   fun _ => true,
   some ⟨[1], fun _ => [some (Fiber.mk (bareInfo 0 none) [])]⟩,
   emptyHeap⟩

/-- Claim C9, witness: on the concrete one-root page, with a non-verbose
snapshot and state rendering requested, the call returns a string. -/
theorem c9_witness :
    ∃ s, (getComponentMap c9WitnessState false true 9 (fun _ => none)).1 =
      Except.ok (some s) :=
  c9_theorem c9WitnessState false true 9 (fun _ => none) rfl (fun _ => rfl)

/-- A processed snapshot node with the session-scoped uid erased: exactly the
data the correlation maps read. -/
inductive SNode where
  | mk (role name : Option String) (backendDOMNodeId : Option Nat)
       (children : List SNode)

mutual

/-- Erase the uids of a processed snapshot tree. -/
def stripUid : ProcNode → SNode
  | .mk role name _ bid children => .mk role name bid (stripUidList children)

def stripUidList : List ProcNode → List SNode
  | [] => []
  | c :: rest => stripUid c :: stripUidList rest

end

theorem stripUidList_eq_map :
    ∀ cs : List ProcNode, stripUidList cs = cs.map stripUid := by
  intro cs
  induction cs with
  | nil => rfl
  | cons c rest ih => simp only [stripUidList, List.map_cons, ih]

theorem processList_indep (f1 f2 : CdpNode → Nat → Option ProcNode × Nat)
    (nodes : List CdpNode)
    (hf : ∀ cn ctr, (f1 cn ctr).2 = (f2 cn ctr).2 ∧
      ((f1 cn ctr).1).map stripUid = ((f2 cn ctr).1).map stripUid) :
    ∀ (cids : List String) (ctr : Nat),
      (processList f1 nodes cids ctr).2 = (processList f2 nodes cids ctr).2 ∧
      ((processList f1 nodes cids ctr).1).map stripUid =
        ((processList f2 nodes cids ctr).1).map stripUid := by
  intro cids
  induction cids with
  | nil => intro ctr; exact ⟨rfl, rfl⟩
  | cons cid rest ih =>
    intro ctr
    cases hn : nodeMapGet nodes cid with
    | none => simpa [processList, hn] using ih ctr
    | some cn =>
      have h1 := hf cn ctr
      have h2 := ih (f1 cn ctr).2
      rw [h1.1] at h2
      cases ho1 : (f1 cn ctr).1 with
      | none =>
        have ho2 : (f2 cn ctr).1 = none := by
          have := h1.2
          rw [ho1] at this
          exact Option.map_eq_none'.mp this.symm
        constructor
        · simp only [processList, hn, ho1, ho2]
          rw [h1.1]
          exact h2.1
        · simp only [processList, hn, ho1, ho2]
          rw [h1.1]
          exact h2.2
      | some p1 =>
        obtain ⟨p2, ho2, hstrip⟩ : ∃ p2, (f2 cn ctr).1 = some p2 ∧
            stripUid p1 = stripUid p2 := by
          have := h1.2
          rw [ho1] at this
          cases hx : (f2 cn ctr).1 with
          | none => rw [hx] at this; exact Option.noConfusion this
          | some p2 =>
            rw [hx] at this
            exact ⟨p2, rfl, Option.some.inj this⟩
        constructor
        · simp only [processList, hn, ho1, ho2]
          rw [h1.1]
          exact h2.1
        · simp only [processList, hn, ho1, ho2, List.map_cons]
          rw [h1.1, hstrip]
          rw [h2.2]

theorem processNode_sid_indep (verbose : Bool) (nodes : List CdpNode)
    (sid1 sid2 : String) :
    ∀ (fuel : Nat) (node : CdpNode) (ctr : Nat),
      (processNode verbose nodes sid1 fuel node ctr).2 =
        (processNode verbose nodes sid2 fuel node ctr).2 ∧
      ((processNode verbose nodes sid1 fuel node ctr).1).map stripUid =
        ((processNode verbose nodes sid2 fuel node ctr).1).map stripUid := by
  intro fuel
  induction fuel with
  | zero => intro node ctr; exact ⟨rfl, rfl⟩
  | succ f ih =>
    intro node ctr
    by_cases hig : (!verbose && node.ignored) = true
    · constructor <;> simp [processNode, hig]
    · have hig' : (!verbose && node.ignored) = false := by
        cases h : (!verbose && node.ignored) with
        | true => exact absurd h hig
        | false => rfl
      have hlist := processList_indep
        (fun cn c => processNode verbose nodes sid1 f cn c)
        (fun cn c => processNode verbose nodes sid2 f cn c)
        nodes (fun cn c => ih cn c) (childrenMapGet nodes node.nodeId)
        (ctr + 1)
      constructor
      · simp only [processNode, hig', Bool.false_eq_true, if_false]
        exact hlist.1
      · simp only [processNode, hig', Bool.false_eq_true, if_false,
          Option.map_some']
        simp only [stripUid, Option.some.injEq, SNode.mk.injEq,
          stripUidList_eq_map, true_and]
        exact hlist.2

mutual

/-- The correlation map as a function of the uid-erased snapshot tree. -/
def sAxMap : SNode → List (Nat × AxInfo) → List (Nat × AxInfo)
  | .mk role name bid children, acc =>
    let acc1 :=
      match bid with
      | some b => if b ≠ 0 then upsertAx acc b ⟨role, name⟩ else acc
      | none => acc
    sAxMapList children acc1

def sAxMapList : List SNode → List (Nat × AxInfo) → List (Nat × AxInfo)
  | [], acc => acc
  | c :: rest, acc => sAxMapList rest (sAxMap c acc)

end

mutual

theorem buildAxMap_strip :
    ∀ (n : ProcNode) (acc : List (Nat × AxInfo)),
      buildAxMap n acc = sAxMap (stripUid n) acc := by
  intro n acc
  cases n with
  | mk role name uid bid children =>
    simp only [buildAxMap, stripUid, sAxMap]
    exact buildAxMapList_strip children _

theorem buildAxMapList_strip :
    ∀ (cs : List ProcNode) (acc : List (Nat × AxInfo)),
      buildAxMapList cs acc = sAxMapList (stripUidList cs) acc := by
  intro cs acc
  cases cs with
  | nil => rfl
  | cons c rest =>
    simp only [buildAxMapList, stripUidList, sAxMapList]
    rw [buildAxMap_strip c acc]
    exact buildAxMapList_strip rest _

end

/-- The backend id of a uid-erased node. -/
def SNode.backendId : SNode → Option Nat
  | .mk _ _ b _ => b

mutual

/-- The adjacency map as a function of the uid-erased snapshot tree. -/
def sHier : SNode → List (Nat × List Nat) → List (Nat × List Nat)
  | .mk _ _ bid children, acc =>
    match bid with
    | some b =>
      if b ≠ 0 then
        let childIds := children.filterMap (fun c =>
          match c.backendId with
          | some cb => if cb ≠ 0 then some cb else none
          | none => none)
        upsertHier (sHierList children acc) b childIds
      else acc
    | none => acc

def sHierList : List SNode → List (Nat × List Nat) → List (Nat × List Nat)
  | [], acc => acc
  | c :: rest, acc => sHierList rest (sHier c acc)

end

theorem stripUid_backendId (c : ProcNode) :
    (stripUid c).backendId = c.backendId := by
  cases c with
  | mk role name uid bid children => rfl

mutual

theorem buildA11yHierarchy_strip :
    ∀ (n : ProcNode) (acc : List (Nat × List Nat)),
      buildA11yHierarchy n acc = sHier (stripUid n) acc := by
  intro n acc
  cases n with
  | mk role name uid bid children =>
    cases bid with
    | none => rfl
    | some b =>
      by_cases hb : b ≠ 0
      · have hfm : List.filterMap (fun (c : SNode) =>
            match c.backendId with
            | some cb => if cb ≠ 0 then some cb else none
            | none => none) (List.map stripUid children) =
            List.filterMap (fun (c : ProcNode) =>
              match c.backendId with
              | some cb => if cb ≠ 0 then some cb else none
              | none => none) children := by
          rw [List.filterMap_map]
          apply List.filterMap_congr
          intro c _
          simp only [Function.comp_apply, stripUid_backendId]
        simp only [buildA11yHierarchy, stripUid, sHier, hb, if_pos,
          stripUidList_eq_map, hfm]
        rw [buildHierList_strip children acc, stripUidList_eq_map]
      · simp only [buildA11yHierarchy, stripUid, sHier, hb,
          Bool.false_eq_true, if_false]

theorem buildHierList_strip :
    ∀ (cs : List ProcNode) (acc : List (Nat × List Nat)),
      buildHierList cs acc = sHierList (stripUidList cs) acc := by
  intro cs acc
  cases cs with
  | nil => rfl
  | cons c rest =>
    simp only [buildHierList, stripUidList, sHierList]
    rw [buildA11yHierarchy_strip c acc]
    exact buildHierList_strip rest _

end

theorem overlayMarkers_idem (ws : List (Nat × MarkerInfo))
    (m0 : Nat → Option MarkerInfo) :
    overlayMarkers ws (overlayMarkers ws m0) = overlayMarkers ws m0 := by
  funext e
  simp only [overlayMarkers]
  cases markerLookup ws e with
  | some m => rfl
  | none => rfl

/-- Claim C4: for a fixed page state, two consecutive `get_component_map`
calls — which may observe different clock values (`Date.now()` feeds the
snapshot id and the uids) and which share the page through the persisted
tagging markers of the first call — produce identical results: the uid/clock
data never reaches the correlation maps, and re-tagging overwrites the same
markers.  The embedded walk processes children left to right,
first-child-then-sibling, so the shared output is in deterministic pre-order
of the component tree. -/
theorem c4_theorem :
    ∀ (st : PageState) (verbose includeState : Bool) (now1 now2 : Nat)
      (m0 : Nat → Option MarkerInfo),
      (getComponentMap st verbose includeState now1 m0).1 =
        (getComponentMap st verbose includeState now2
          ((getComponentMap st verbose includeState now1 m0).2)).1 := by
  intro st verbose incl now1 now2 m0
  cases hax : st.axNodes with
  | nil => simp [getComponentMap, takeSnapshot, hax]
  | cons n ns =>
    have hind := processNode_sid_indep verbose (n :: ns) (toString now1)
      (toString now2) ((n :: ns).length) n 0
    simp only [getComponentMap, hax, takeSnapshot_cons]
    cases hr1 : (processNode verbose (n :: ns) (toString now1)
        ((n :: ns).length) n 0).1 with
    | none =>
      have hr2 : (processNode verbose (n :: ns) (toString now2)
          ((n :: ns).length) n 0).1 = none := by
        have hmap := hind.2
        rw [hr1] at hmap
        exact Option.map_eq_none'.mp hmap.symm
      simp only [hr1, hr2]
    | some p1 =>
      obtain ⟨p2, hr2, hstrip⟩ : ∃ p2, (processNode verbose (n :: ns)
          (toString now2) ((n :: ns).length) n 0).1 = some p2 ∧
          stripUid p1 = stripUid p2 := by
        have hmap := hind.2
        rw [hr1] at hmap
        cases hx : (processNode verbose (n :: ns) (toString now2)
            ((n :: ns).length) n 0).1 with
        | none => rw [hx] at hmap; exact Option.noConfusion hmap
        | some p2 =>
          rw [hx] at hmap
          exact ⟨p2, rfl, Option.some.inj hmap⟩
      have haxm : buildAxMap p2 [] = buildAxMap p1 [] := by
        rw [buildAxMap_strip, buildAxMap_strip, hstrip]
      have hhier : buildA11yHierarchy p2 [] = buildA11yHierarchy p1 [] := by
        rw [buildA11yHierarchy_strip, buildA11yHierarchy_strip, hstrip]
      simp only [hr1, hr2, haxm, hhier]
      cases heval : componentMapEval incl (buildAxMap p1 [])
          (buildA11yHierarchy p1 [])
          st.hook
          (overlayMarkers (tagWrites st.resolvable (buildAxMap p1 [])) m0)
          st.heap with
      | none => simp only [heval, overlayMarkers_idem, heval]
      | some r =>
        cases r with
        | error e => simp only [heval, overlayMarkers_idem, heval]
        | ok lines => simp only [heval, overlayMarkers_idem, heval]

end RDT
